import Mathlib

/-!
# triton-go, `compute/packages.go`: `PackagesClient.List` and `PackagesClient.Get`

A shallow embedding of the two operations of the packages client together with
the parts of the Go standard library they call (`strconv.Itoa`, `url.Values`,
`path.Join`, `encoding/json`'s `Decoder.Decode`, `github.com/pkg/errors.Wrap`).

Conventions of the embedding:

* a Go `string` is a Lean `String`, i.e. a Go string holding valid UTF-8; where
  Go works on bytes (`url.QueryEscape`, the JSON scanner's error messages) the
  bytes are the UTF-8 encoding of the characters;
* `int64` is `Int` restricted by an explicit range predicate, `int` is `Int`
  wrapped to the platform width `intSize` (`strconv.IntSize`, 32 or 64);
* a call returns a record of its Go results (`result`, `err`) and the trace of
  what it did to the outside world (requests issued, stream read, stream closed);
* the transport `client.Client.ExecuteRequest` is not part of `compute/`; it is
  a field of the client, a function from the request to what the call returns.
-/

namespace Triton

/-! ## Errors: `errors.New`, `errors.Wrap` -/

/-- A Go `error` value: either a leaf error with a message, or the result of
`errors.Wrap(cause, message)`. -/
inductive GoError where
  | New (msg : String)
  | Wrap (cause : GoError) (message : String)
  deriving DecidableEq, Repr

/-- The method `Error()`: a wrapped error prints as `message: cause`. -/
def GoError.Error : GoError → String
  | .New msg => msg
  | .Wrap cause message => message ++ ": " ++ cause.Error

/-- The function `strings.Contains(s, substr)`. -/
def Contains (s substr : String) : Prop := substr.data <:+: s.data

instance (s substr : String) : Decidable (Contains s substr) := by
  unfold Contains; infer_instance

/-- The function `strings.HasPrefix(s, prefix)`. -/
def HasPrefix (s pre : String) : Prop := pre.data <+: s.data

instance (s pre : String) : Decidable (HasPrefix s pre) := by
  unfold HasPrefix; infer_instance

/-! ## `strconv` -/

/-- The decimal digit `0`..`9` as a character. -/
def digitChar (d : Nat) : Char := Char.ofNat (48 + d)

/-- The digit loop of `strconv.formatBits` for base 10: the decimal digits of
`u`, most significant first, written in front of `acc`. -/
def formatUintAux : Nat → Nat → List Char → List Char
  | 0, _, acc => acc
  | fuel + 1, u, acc =>
    if u < 10 then digitChar u :: acc
    else formatUintAux fuel (u / 10) (digitChar (u % 10) :: acc)

/-- The function `strconv.FormatUint(u, 10)`. A number `u` has at most `u + 1`
digits, so the loop never runs out of steps (`formatUintAux_fuel`,
`formatUintAux_spec`). -/
def formatUint (u : Nat) : List Char := formatUintAux (u + 1) u []

/-- The function `strconv.FormatInt(i, 10)`: a leading `-` for negative values. -/
def FormatInt (i : Int) : String :=
  if i < 0 then String.mk ('-' :: formatUint (-i).toNat) else String.mk (formatUint i.toNat)

/-- The function `strconv.Itoa(i)` is `FormatInt(int64(i), 10)`. -/
def Itoa (i : Int) : String := FormatInt i

/-- The conversion `int(x)` of an `int64` on a platform whose `int` has
`intSize` bits: the value is wrapped into `[-2^(intSize-1), 2^(intSize-1))`. -/
def toInt (intSize : Nat) (x : Int) : Int :=
  (x + 2 ^ (intSize - 1)) % 2 ^ intSize - 2 ^ (intSize - 1)

/-- The values of type `int64`. -/
def IsInt64 (x : Int) : Prop := -(2 ^ 63) ≤ x ∧ x < 2 ^ 63

instance (x : Int) : Decidable (IsInt64 x) := by unfold IsInt64; infer_instance

/-- The value of a decimal digit character, if it is one. -/
def digitVal (c : Char) : Option Nat :=
  if 48 ≤ c.toNat ∧ c.toNat ≤ 57 then some (c.toNat - 48) else none

/-- The digit loop of `strconv.ParseUint(s, 10, _)`: fails on a non-digit. -/
def parseDigits : Nat → List Char → Option Nat
  | acc, [] => some acc
  | acc, c :: cs =>
    match digitVal c with
    | none => none
    | some d => parseDigits (acc * 10 + d) cs

/-- The function `strconv.ParseInt(s, 10, bitSize)`: an optional sign, then at
least one digit, nothing else, and the value must fit in `bitSize` bits;
`none` stands for a returned error (syntax or range). -/
def ParseInt (s : List Char) (bitSize : Nat) : Option Int :=
  let neg := s.head? = some '-'
  let digits := if s.head? = some '+' ∨ s.head? = some '-' then s.tail else s
  if digits = [] then none
  else
    match parseDigits 0 digits with
    | none => none
    | some n =>
      if neg then (if n ≤ 2 ^ (bitSize - 1) then some (-(n : Int)) else none)
      else (if n < 2 ^ (bitSize - 1) then some (n : Int) else none)

/-! ## `net/url`: `Values` and `QueryEscape` -/

/-- The UTF-8 encoding of a character, as byte values. -/
def utf8Bytes (c : Char) : List Nat :=
  let v := c.toNat
  if v ≤ 0x7f then [v]
  else if v ≤ 0x7ff then [0xc0 + v / 64, 0x80 + v % 64]
  else if v ≤ 0xffff then [0xe0 + v / 4096, 0x80 + v / 64 % 64, 0x80 + v % 64]
  else [0xf0 + v / 262144, 0x80 + v / 4096 % 64, 0x80 + v / 64 % 64, 0x80 + v % 64]

/-- The predicate `url.shouldEscape(c, encodeQueryComponent)`: everything except
ASCII letters, digits and `-`, `_`, `.`, `~` is escaped in a query component. -/
def shouldEscape (b : Nat) : Bool :=
  !((97 ≤ b && b ≤ 122) || (65 ≤ b && b ≤ 90) || (48 ≤ b && b ≤ 57)
    || b = 45 || b = 95 || b = 46 || b = 126)

/-- The digit `"0123456789ABCDEF"[n]`. -/
def upperhex (n : Nat) : Char :=
  if n < 10 then Char.ofNat (48 + n) else Char.ofNat (55 + n)

/-- One byte of `url.escape(s, encodeQueryComponent)`. -/
def escapeByte (b : Nat) : List Char :=
  if shouldEscape b then
    if b = 32 then ['+'] else ['%', upperhex (b / 16), upperhex (b % 16)]
  else [Char.ofNat b]

/-- The function `url.QueryEscape(s)`. -/
def QueryEscape (s : String) : String :=
  String.mk (s.data.flatMap fun c => (utf8Bytes c).flatMap escapeByte)

/-- The type `url.Values`, a `map[string][]string`. The map is represented by
its entries, one per key, in the order in which the keys were first set; Go
itself keeps no order, and `Has`, `Get` and `Encode` do not depend on it. -/
structure Values where
  entries : List (String × List String)
  deriving DecidableEq, Repr

/-- The assignment `m[key] = vs` on the entries of a map. -/
def setEntry : List (String × List String) → String → List String →
    List (String × List String)
  | [], key, vs => [(key, vs)]
  | (k, old) :: rest, key, vs =>
    if k = key then (k, vs) :: rest else (k, old) :: setEntry rest key vs

/-- The empty map `url.Values{}`. -/
def Values.empty : Values := ⟨[]⟩

/-- The method `Set`: `v[key] = []string{value}`, replacing any earlier values. -/
def Values.Set (v : Values) (key value : String) : Values :=
  ⟨setEntry v.entries key [value]⟩

/-- The lookup `v[key]`: the values stored under `key`, `nil` (empty) when
the key is absent. -/
def Values.lookup (v : Values) (key : String) : List String :=
  match v.entries.find? fun kv => kv.1 = key with
  | some kv => kv.2
  | none => []

/-- The keys of the map, in the order in which `Set` introduced them. -/
def Values.keys (v : Values) : List String := v.entries.map Prod.fst

/-- The method `Has`: whether `key` is a key of the map. -/
def Values.Has (v : Values) (key : String) : Prop := key ∈ v.keys

instance (v : Values) (key : String) : Decidable (v.Has key) := by
  unfold Values.Has; infer_instance

/-- The comparison `a <= b` of Go strings, byte by byte; on valid UTF-8 the
byte order is the order of the code points. -/
def strLE : List Char → List Char → Bool
  | [], _ => true
  | _ :: _, [] => false
  | a :: as, b :: bs => a.toNat < b.toNat || (a.toNat = b.toNat && strLE as bs)

/-- The method `Encode`: the keys are sorted (`sort.Strings`), and for each key
`k` every value of `v[k]` is written as `QueryEscape(k)=QueryEscape(value)`,
the pieces joined by `&`. -/
def Values.Encode (v : Values) : String :=
  "&".intercalate
    ((v.keys.insertionSort fun a b => strLE a.data b.data = true).flatMap fun k =>
      (v.lookup k).map fun value => QueryEscape k ++ "=" ++ QueryEscape value)

/-! ## `path`: `Clean` and `Join` -/

/-- The backtracking loop of `path.Clean` at a `..` element, entered after the
first `out.w--` with write index `w`: `for out.w > dotdot && out.index(out.w) != '/' { out.w-- }`.
Returns the final write index. -/
def backtrackLoop (buf : List Char) (dotdot : Nat) : Nat → Nat
  | 0 => 0
  | w + 1 =>
    if w + 1 > dotdot ∧ buf.get? (w + 1) ≠ some '/' then backtrackLoop buf dotdot w
    else w + 1

/-- The main loop `for r < n` of `path.Clean`. The unread input `path[r:]` is
`rest`, the output written so far `out[:w]` is `out`; `dotdot` is the index
where `..` must stop. Every iteration consumes at least one character of `rest`,
so `fuel = len(path)` iterations are enough (`cleanLoop_fuel`). -/
def cleanLoop (rooted : Bool) : Nat → List Char → List Char → Nat → List Char
  | 0, _, out, _ => out
  | _ + 1, [], out, _ => out
  | fuel + 1, c :: t, out, dotdot =>
    if c = '/' then
      -- empty path element
      cleanLoop rooted fuel t out dotdot
    else if c = '.' ∧ (t = [] ∨ t.head? = some '/') then
      -- . element
      cleanLoop rooted fuel t out dotdot
    else if c = '.' ∧ t.head? = some '.' ∧ (t.tail = [] ∨ t.tail.head? = some '/') then
      -- .. element: remove to last /
      if out.length > dotdot then
        cleanLoop rooted fuel t.tail
          (out.take (backtrackLoop out dotdot (out.length - 1))) dotdot
      else if !rooted then
        let out1 := if out.length > 0 then out ++ ['/'] else out
        let out2 := out1 ++ ['.', '.']
        cleanLoop rooted fuel t.tail out2 out2.length
      else cleanLoop rooted fuel t.tail out dotdot
    else
      -- real path element: add slash if needed, copy element
      let out1 :=
        if (rooted && out.length != 1) || (!rooted && out.length != 0) then out ++ ['/']
        else out
      cleanLoop rooted fuel ((c :: t).dropWhile fun x => x ≠ '/')
        (out1 ++ (c :: t).takeWhile fun x => x ≠ '/') dotdot

/-- The function `path.Clean`. -/
def Clean (path : String) : String :=
  if path.data = [] then "."
  else
    let rooted : Bool := path.data.head? = some '/'
    let out :=
      if rooted then cleanLoop true path.data.length path.data.tail ['/'] 1
      else cleanLoop false path.data.length path.data [] 0
    if out.length = 0 then "." else String.mk out

/-- The loop of `path.Join` that fills `buf`: empty leading elements are
skipped, later elements are appended after a `/`. -/
def joinBuf : List Char → List String → List Char
  | buf, [] => buf
  | buf, e :: es =>
    if buf.length > 0 ∨ e.data ≠ [] then
      joinBuf ((if buf.length > 0 then buf ++ ['/'] else buf) ++ e.data) es
    else joinBuf buf es

/-- The function `path.Join(elem...)`. -/
def Join (elem : List String) : String :=
  if (elem.map fun e => e.data.length).sum = 0 then ""
  else Clean (String.mk (joinBuf [] elem))

/-! ## `encoding/json`: the scanner -/

/-- A JSON value as `encoding/json` reads it. A number keeps its literal text,
a string is held unquoted. -/
inductive JSON where
  | null
  | bool (b : Bool)
  | number (literal : List Char)
  | string (s : List Char)
  | array (elems : List JSON)
  | object (members : List (List Char × JSON))
  deriving Repr

/-- What scanning a piece of input gives: a value and the unread input, a
`SyntaxError` with its message, the end of the input inside the value (`more`),
or a scan abandoned for lack of steps (`stuck`, excluded by `scanValue_fuel`). -/
inductive Scan (α : Type) where
  | ok (v : α) (rest : List Char)
  | syntaxError (msg : String)
  | more
  | stuck
  deriving Repr

/-- The predicate `isSpace` of the scanner. -/
def isSpace (c : Char) : Bool := c = ' ' || c = '\t' || c = '\r' || c = '\n'

/-- Two lower-case hexadecimal digits, as `strconv.Quote` writes them. -/
def lowerhex (n : Nat) : Char :=
  if n < 10 then Char.ofNat (48 + n) else Char.ofNat (87 + n)

/-- The function `quoteChar` of the scanner on a byte `b`: the byte between
single quotes, written as `strconv.Quote` writes the rune `b`. -/
def quoteChar (b : Nat) : String :=
  if b = 39 then "'\\''"
  else if b = 34 then "'\"'"
  else if b = 92 then "'\\\\'"
  else if (0x20 ≤ b ∧ b ≤ 0x7e) ∨ (0xa1 ≤ b ∧ b ≤ 0xff ∧ b ≠ 0xad) then
    String.mk ['\'', Char.ofNat b, '\'']
  else if b = 7 then "'\\a'"
  else if b = 8 then "'\\b'"
  else if b = 12 then "'\\f'"
  else if b = 10 then "'\\n'"
  else if b = 13 then "'\\r'"
  else if b = 9 then "'\\t'"
  else if b = 11 then "'\\v'"
  else if b < 0x20 ∨ b = 0x7f then
    String.mk ['\'', '\\', 'x', lowerhex (b / 16), lowerhex (b % 16), '\'']
  else String.mk ['\'', '\\', 'u', '0', '0', lowerhex (b / 16), lowerhex (b % 16), '\'']

/-- The method `scanner.error(c, context)`: the scanner sees bytes, so the
character reported is the first byte of the offending character. -/
def syntaxError {α : Type} (c : Char) (context : String) : Scan α :=
  .syntaxError ("invalid character " ++ quoteChar ((utf8Bytes c).headD 0) ++ " " ++ context)

/-- Input with the leading white space skipped. -/
def skipSpace : List Char → List Char
  | [] => []
  | c :: cs => if isSpace c then skipSpace cs else c :: cs

/-- The remaining letters of a literal `true`, `false` or `null` (states
`stateT` .. `stateNul`): `name` is the whole literal, `expect` what is left. -/
def scanLiteral (name : String) (v : JSON) : List Char → List Char → Scan JSON
  | [], rest => .ok v rest
  | _ :: _, [] => .more
  | e :: es, c :: cs =>
    if c = e then scanLiteral name v es cs
    else syntaxError c
      ("in literal " ++ name ++ " (expecting " ++ String.mk ['\'', e, '\''] ++ ")")

/-- Whether `c` is a decimal digit. -/
def isDigit (c : Char) : Bool := '0' ≤ c && c ≤ '9'

/-- States `state1`, `stateDot0`, `stateE0`: a run of digits. -/
def scanDigits : List Char → List Char × List Char
  | [] => ([], [])
  | c :: cs =>
    if isDigit c then ((scanDigits cs).1.cons c, (scanDigits cs).2) else ([], c :: cs)

/-- States `stateE`, `stateESign`, `stateE0`: the exponent after `e` or `E`;
`lit` holds the literal read so far in reverse order. -/
def scanExponent (lit : List Char) : List Char → Scan JSON
  | [] => .more
  | c :: cs =>
    let signed := c = '+' ∨ c = '-'
    let lit1 := if signed then lit ++ [c] else lit
    let rest := if signed then cs else c :: cs
    match rest with
    | [] => .more
    | d :: ds =>
      if isDigit d then
        .ok (.number (lit1 ++ d :: (scanDigits ds).1)) (scanDigits ds).2
      else syntaxError d "in exponent of numeric literal"

/-- States `state0`, `stateDot`, `stateDot0`: what may follow the integer part
`lit` of a number. -/
def scanFraction (lit : List Char) : List Char → Scan JSON
  | [] => .ok (.number lit) []
  | c :: cs =>
    if c = '.' then
      match cs with
      | [] => .more
      | d :: ds =>
        if isDigit d then
          let frac := lit ++ '.' :: d :: (scanDigits ds).1
          match (scanDigits ds).2 with
          | [] => .ok (.number frac) []
          | e :: es =>
            if e = 'e' ∨ e = 'E' then scanExponent (frac ++ [e]) es
            else .ok (.number frac) (e :: es)
        else syntaxError d "after decimal point in numeric literal"
    else if c = 'e' ∨ c = 'E' then scanExponent (lit ++ [c]) cs
    else .ok (.number lit) (c :: cs)

/-- States `stateNeg`, `state0`, `state1`: a number whose first character after
the optional sign `sign` is `c`. -/
def scanNumber (sign : List Char) : List Char → Scan JSON
  | [] => .more
  | c :: cs =>
    if c = '0' then scanFraction (sign ++ ['0']) cs
    else if isDigit c then
      scanFraction (sign ++ c :: (scanDigits cs).1) (scanDigits cs).2
    else syntaxError c "in numeric literal"

/-- The value of a hexadecimal digit, if `c` is one. -/
def hexVal (c : Char) : Option Nat :=
  if '0' ≤ c ∧ c ≤ '9' then some (c.toNat - 48)
  else if 'a' ≤ c ∧ c ≤ 'f' then some (c.toNat - 87)
  else if 'A' ≤ c ∧ c ≤ 'F' then some (c.toNat - 55)
  else none

/-- States `stateInStringEscU` .. `stateInStringEscU123`: the four hexadecimal
digits after `\u`; gives the code unit and the unread input. -/
def scanHex4 : Nat → Nat → List Char → Scan Nat
  | 0, acc, rest => .ok acc rest
  | _ + 1, _, [] => .more
  | n + 1, acc, c :: cs =>
    match hexVal c with
    | some d => scanHex4 n (acc * 16 + d) cs
    | none => syntaxError c "in \\u hexadecimal character escape"

/-- The function `getu4`: the code unit of an escape `\uXXXX` at the start of
the input, if there is one. -/
def getu4 : List Char → Option Nat
  | '\\' :: 'u' :: a :: b :: c :: d :: _ =>
    match hexVal a, hexVal b, hexVal c, hexVal d with
    | some x, some y, some z, some w => some (((x * 16 + y) * 16 + z) * 16 + w)
    | _, _, _, _ => none
  | _ => none

/-- The character `unquote` writes for the escape `\uXXXX` with code unit `rr`
followed by the input `rest`, and whether a second escape was consumed as the
low half of a surrogate pair. An unpaired surrogate becomes U+FFFD. -/
def unquoteU (rr : Nat) (rest : List Char) : Char × Bool :=
  if 0xd800 ≤ rr ∧ rr < 0xe000 then
    match getu4 rest with
    | some rr1 =>
      if rr < 0xdc00 ∧ 0xdc00 ≤ rr1 ∧ rr1 < 0xe000 then
        (Char.ofNat ((rr - 0xd800) * 1024 + (rr1 - 0xdc00) + 0x10000), true)
      else (Char.ofNat 0xfffd, false)
    | none => (Char.ofNat 0xfffd, false)
  else (Char.ofNat rr, false)

/-- States `stateInString`, `stateInStringEsc`: the characters of a string
after the opening quote, unquoted as `unquote` does. After an escape `\uXXXX`
the hexadecimal digits (and, for a surrogate pair, the second escape), already
checked, are passed over: `skip` counts the characters left to pass over. -/
def scanString : Nat → List Char → List Char → Scan (List Char)
  | _, _, [] => .more
  | skip + 1, acc, _ :: cs => scanString skip acc cs
  | 0, acc, c :: cs =>
    if c = '"' then .ok acc cs
    else if c = '\\' then
      match cs with
      | [] => .more
      | e :: es =>
        if e = 'u' then
          match scanHex4 4 0 es with
          | .ok rr _ =>
            scanString (if (unquoteU rr (es.drop 4)).2 then 10 else 4)
              (acc ++ [(unquoteU rr (es.drop 4)).1]) es
          | .syntaxError msg => .syntaxError msg
          | .more => .more
          | .stuck => .stuck
        else if e = '"' ∨ e = '\\' ∨ e = '/' then scanString 0 (acc ++ [e]) es
        else if e = 'b' then scanString 0 (acc ++ [Char.ofNat 8]) es
        else if e = 'f' then scanString 0 (acc ++ [Char.ofNat 12]) es
        else if e = 'n' then scanString 0 (acc ++ ['\n']) es
        else if e = 'r' then scanString 0 (acc ++ ['\r']) es
        else if e = 't' then scanString 0 (acc ++ ['\t']) es
        else syntaxError e "in string escape code"
    else if c.toNat < 0x20 then syntaxError c "in string literal"
    else scanString 0 (acc ++ [c]) cs

/-- The constant `maxNestingDepth` of the scanner. -/
def maxNestingDepth : Nat := 10000

/-- Changes the kind of value a scan gives. -/
def Scan.map {α β : Type} (f : α → β) : Scan α → Scan β
  | .ok v rest => .ok (f v) rest
  | .syntaxError msg => .syntaxError msg
  | .more => .more
  | .stuck => .stuck

mutual
/-- State `stateBeginValue`: one JSON value at the start of the input, inside
`depth` open arrays and objects. -/
def scanValue : Nat → Nat → List Char → Scan JSON
  | 0, _, _ => .stuck
  | fuel + 1, depth, input =>
    match skipSpace input with
    | [] => .more
    | c :: cs =>
      if c = '{' then
        if depth + 1 ≤ maxNestingDepth then
          -- stateBeginStringOrEmpty
          match skipSpace cs with
          | [] => .more
          | d :: ds =>
            if d = '}' then .ok (.object []) ds
            else scanMembers fuel (depth + 1) (d :: ds) []
        else syntaxError c "exceeded max depth"
      else if c = '[' then
        if depth + 1 ≤ maxNestingDepth then
          -- stateBeginValueOrEmpty
          match skipSpace cs with
          | [] => .more
          | d :: ds =>
            if d = ']' then .ok (.array []) ds
            else scanElems fuel (depth + 1) (d :: ds) []
        else syntaxError c "exceeded max depth"
      else if c = '"' then (scanString 0 [] cs).map .string
      else if c = '-' then scanNumber ['-'] cs
      else if isDigit c then scanNumber [] (c :: cs)
      else if c = 't' then scanLiteral "true" (.bool true) ['r', 'u', 'e'] cs
      else if c = 'f' then scanLiteral "false" (.bool false) ['a', 'l', 's', 'e'] cs
      else if c = 'n' then scanLiteral "null" .null ['u', 'l', 'l'] cs
      else syntaxError c "looking for beginning of value"

/-- The elements of an array from the next element on (`stateBeginValue` with
`parseArrayValue` on the stack, then `stateEndValue`); `acc` holds the elements
read so far. -/
def scanElems : Nat → Nat → List Char → List JSON → Scan JSON
  | 0, _, _, _ => .stuck
  | fuel + 1, depth, input, acc =>
    match scanValue fuel depth input with
    | .ok v rest =>
      match skipSpace rest with
      | [] => .more
      | c :: cs =>
        if c = ',' then scanElems fuel depth cs (acc ++ [v])
        else if c = ']' then .ok (.array (acc ++ [v])) cs
        else syntaxError c "after array element"
    | .syntaxError msg => .syntaxError msg
    | .more => .more
    | .stuck => .stuck

/-- The members of an object from the next key on (`stateBeginString`, then
`stateEndValue` with `parseObjectKey` and `parseObjectValue` on the stack);
`acc` holds the members read so far. -/
def scanMembers : Nat → Nat → List Char → List (List Char × JSON) → Scan JSON
  | 0, _, _, _ => .stuck
  | fuel + 1, depth, input, acc =>
    match skipSpace input with
    | [] => .more
    | c :: cs =>
      if c = '"' then
        match scanString 0 [] cs with
        | .ok key rest =>
          match skipSpace rest with
          | [] => .more
          | d :: ds =>
            if d = ':' then
              match scanValue fuel depth ds with
              | .ok v rest2 =>
                match skipSpace rest2 with
                | [] => .more
                | e :: es =>
                  if e = ',' then scanMembers fuel depth es (acc ++ [(key, v)])
                  else if e = '}' then .ok (.object (acc ++ [(key, v)])) es
                  else syntaxError e "after object key:value pair"
              | .syntaxError msg => .syntaxError msg
              | .more => .more
              | .stuck => .stuck
            else syntaxError d "after object key"
        | .syntaxError msg => .syntaxError msg
        | .more => .more
        | .stuck => .stuck
      else syntaxError c "looking for beginning of object key string"
end

/-! ## `compute.Package` and `encoding/json`: storing a value -/

/-- The struct `Package` of `compute/packages.go`. -/
structure Package where
  ID : String
  Name : String
  Memory : Int
  Disk : Int
  Swap : Int
  LWPs : Int
  VCPUs : Int
  Version : String
  Group : String
  Description : String
  Default : Bool
  deriving DecidableEq, Repr

/-- The zero value `Package{}`. -/
def Package.zero : Package := ⟨"", "", 0, 0, 0, 0, 0, "", "", "", false⟩

/-- The fields of `Package`, in the order of declaration. -/
inductive Field where
  | ID | Name | Memory | Disk | Swap | LWPs | VCPUs | Version | Group | Description | Default
  deriving DecidableEq, Repr

/-- The name in the `json:"..."` tag of a field. -/
def Field.name : Field → String
  | .ID => "id"
  | .Name => "name"
  | .Memory => "memory"
  | .Disk => "disk"
  | .Swap => "swap"
  | .LWPs => "lwps"
  | .VCPUs => "vcpus"
  | .Version => "version"
  | .Group => "group"
  | .Description => "description"
  | .Default => "default"

/-- The Go type of a field, as `reflect.Type.String()` prints it. -/
def Field.type : Field → String
  | .ID | .Name | .Version | .Group | .Description => "string"
  | .Memory | .Disk | .Swap | .LWPs | .VCPUs => "int64"
  | .Default => "bool"

/-- All fields of `Package`, in the order of declaration. -/
def packageFields : List Field :=
  [.ID, .Name, .Memory, .Disk, .Swap, .LWPs, .VCPUs, .Version, .Group, .Description, .Default]

/-- The case folding of `json.foldName` on one character: ASCII letters are
upper-cased, and the two other characters whose fold class has an ASCII letter
(U+017F long s, U+212A Kelvin sign) go to that letter. The remaining characters
are kept: their class has no ASCII letter, and the names folded names are
compared with are ASCII. -/
def foldChar (c : Char) : Char :=
  if 'a' ≤ c ∧ c ≤ 'z' then Char.ofNat (c.toNat - 32)
  else if c.toNat = 0x17f then 'S'
  else if c.toNat = 0x212a then 'K'
  else c

/-- The field an object key selects: the field whose name is the key, else
the first field whose name equals the key under case folding. -/
def findField (key : List Char) : Option Field :=
  match packageFields.find? fun f => f.name.data = key with
  | some f => some f
  | none => packageFields.find? fun f => f.name.data.map foldChar = key.map foldChar

/-- The message of an `UnmarshalTypeError` raised outside any struct field. -/
def unmarshalTypeError (value type : String) : GoError :=
  .New ("json: cannot unmarshal " ++ value ++ " into Go value of type " ++ type)

/-- The message of an `UnmarshalTypeError` raised while storing into the field
`f` of a `Package`. -/
def unmarshalFieldError (value : String) (f : Field) : GoError :=
  .New ("json: cannot unmarshal " ++ value ++ " into Go struct field Package." ++ f.name ++
    " of type " ++ f.type)

/-- The method `saveError`: only the first error is kept. -/
def saveError (saved : Option GoError) (err : Option GoError) : Option GoError :=
  match saved with
  | some e => some e
  | none => err

/-- Assignment of a string to a field of kind string. -/
def Package.setString (p : Package) (f : Field) (s : String) : Package :=
  match f with
  | .ID => { p with ID := s }
  | .Name => { p with Name := s }
  | .Version => { p with Version := s }
  | .Group => { p with Group := s }
  | .Description => { p with Description := s }
  | _ => p

/-- Assignment of an integer to a field of kind int64. -/
def Package.setInt (p : Package) (f : Field) (n : Int) : Package :=
  match f with
  | .Memory => { p with Memory := n }
  | .Disk => { p with Disk := n }
  | .Swap => { p with Swap := n }
  | .LWPs => { p with LWPs := n }
  | .VCPUs => { p with VCPUs := n }
  | _ => p

/-- Assignment of a boolean to a field of kind bool. -/
def Package.setBool (p : Package) (f : Field) (b : Bool) : Package :=
  match f with
  | .Default => { p with Default := b }
  | _ => p

/-- The name `encoding/json` gives the kind of a JSON value in its errors. -/
def JSON.kindName : JSON → String
  | .null => "null"
  | .bool _ => "bool"
  | .number _ => "number"
  | .string _ => "string"
  | .array _ => "array"
  | .object _ => "object"

/-- Storing the JSON value `v` into the field `f` of `p` (`literalStore`, and
`object`/`array` on a scalar target): `null` leaves the field alone, a value of
the field's kind is assigned, an integer must be a plain decimal literal within
`int64`, everything else is an `UnmarshalTypeError` and leaves the field alone. -/
def storeField (p : Package) (f : Field) (v : JSON) : Package × Option GoError :=
  match v with
  | .null => (p, none)
  | .string s =>
    if f.type = "string" then (p.setString f (String.mk s), none)
    else (p, some (unmarshalFieldError "string" f))
  | .number literal =>
    if f.type = "int64" then
      match ParseInt literal 64 with
      | some n => (p.setInt f n, none)
      | none => (p, some (unmarshalFieldError ("number " ++ String.mk literal) f))
    else (p, some (unmarshalFieldError "number" f))
  | .bool b =>
    if f.type = "bool" then (p.setBool f b, none)
    else (p, some (unmarshalFieldError "bool" f))
  | .array _ => (p, some (unmarshalFieldError "array" f))
  | .object _ => (p, some (unmarshalFieldError "object" f))

/-- Decoding the members of a JSON object into a `Package`, in the order of
the text: a member whose key selects no field is skipped, later members
overwrite earlier ones, and the first error is saved while decoding goes on. -/
def decodeMembers : List (List Char × JSON) → Package → Option GoError →
    Package × Option GoError
  | [], p, saved => (p, saved)
  | (key, v) :: rest, p, saved =>
    match findField key with
    | none => decodeMembers rest p saved
    | some f => decodeMembers rest (storeField p f v).1 (saveError saved (storeField p f v).2)

/-- Decoding a JSON value into a nil `*Package`: `null` leaves it nil; for
every other value a `Package` is allocated, and filled if the value is an
object, an `UnmarshalTypeError` being saved otherwise. -/
def decodePackagePtr (v : JSON) (saved : Option GoError) : Option Package × Option GoError :=
  match v with
  | .null => (none, saved)
  | .object members =>
    (some (decodeMembers members Package.zero saved).1,
      (decodeMembers members Package.zero saved).2)
  | other =>
    (some Package.zero, saveError saved (some (unmarshalTypeError other.kindName "compute.Package")))

/-- Decoding the elements of a JSON array into the elements of a fresh
`[]*Package`, the first error being saved. -/
def decodeElems : List JSON → Option GoError → List (Option Package) × Option GoError
  | [], saved => ([], saved)
  | v :: rest, saved =>
    ((decodePackagePtr v saved).1 :: (decodeElems rest (decodePackagePtr v saved).2).1,
      (decodeElems rest (decodePackagePtr v saved).2).2)

/-- Decoding a JSON value into `var result []*Package` (nil): the value of
`result` afterwards (`none` is the nil slice) and the error `Unmarshal` returns. -/
def unmarshalPackages (v : JSON) : Option (List (Option Package)) × Option GoError :=
  match v with
  | .null => (none, none)
  | .array elems => (some (decodeElems elems none).1, (decodeElems elems none).2)
  | other => (none, some (unmarshalTypeError other.kindName "[]*compute.Package"))

/-- Decoding a JSON value into `var result *Package` (nil). -/
def unmarshalPackage (v : JSON) : Option Package × Option GoError :=
  decodePackagePtr v none

/-! ## `encoding/json`: `Decoder.Decode` on a stream -/

/-- An `io.ReadCloser` as the decoder sees it: the bytes `Read` delivers, and
the error that ends the stream (`none` is a clean `io.EOF`). -/
structure ReadCloser where
  data : String
  readErr : Option GoError
  deriving DecidableEq, Repr

/-- The error `io.EOF`. -/
def EOF : GoError := .New "EOF"

/-- The error `io.ErrUnexpectedEOF`. -/
def ErrUnexpectedEOF : GoError := .New "unexpected EOF"

/-- Whether the value is an array or an object: the scanner reports the end of
those at the closing bracket, of every other value one byte later. -/
def JSON.isComposite : JSON → Bool
  | .array _ => true
  | .object _ => true
  | _ => false

/-- The method `Decoder.readValue`: the next JSON value of the stream. The
bytes received are scanned before the error of the last `Read` is looked at; at
a clean end of the stream a scalar that reaches the end of the data is complete,
white space alone gives `io.EOF`, and anything else `io.ErrUnexpectedEOF`. -/
def readValue (body : ReadCloser) : Except GoError JSON :=
  match scanValue (2 * body.data.data.length + 2) 0 body.data.data with
  | .ok v rest =>
    if v.isComposite ∨ rest ≠ [] then .ok v
    else
      match body.readErr with
      | none => .ok v
      | some e => .error e
  | .syntaxError msg => .error (.New msg)
  | .more =>
    match body.readErr with
    | some e => .error e
    | none => if skipSpace body.data.data = [] then .error EOF else .error ErrUnexpectedEOF
  | .stuck => .error ErrUnexpectedEOF -- never taken: `scanValue_fuel`

/-- The call `json.NewDecoder(body).Decode(&result)` for `var result []*Package`:
the value of `result` afterwards and the error returned. -/
def decodePackages (body : ReadCloser) : Option (List (Option Package)) × Option GoError :=
  match readValue body with
  | .error e => (none, some e)
  | .ok v => unmarshalPackages v

/-- The call `json.NewDecoder(body).Decode(&result)` for `var result *Package`. -/
def decodePackage (body : ReadCloser) : Option Package × Option GoError :=
  match readValue body with
  | .error e => (none, some e)
  | .ok v => unmarshalPackage v

/-! ## `client`: what `compute/packages.go` uses of the transport -/

/-- The struct `client.RequestInput`, with the fields the packages client
sets: `Query` is a `*url.Values`, `none` when it is left nil. -/
structure RequestInput where
  Method : String
  Path : String
  Query : Option Values
  deriving DecidableEq, Repr

/-- The struct `client.Client` as the packages client uses it: the account
name, and `ExecuteRequest`, which for a request returns either an error or the
stream of the response body. -/
structure Client where
  AccountName : String
  ExecuteRequest : RequestInput → Except GoError ReadCloser

/-- The constant `http.MethodGet`. -/
def MethodGet : String := "GET"

/-- What a call does to the outside world. -/
inductive Event where
  | ExecuteRequest (input : RequestInput)
  | Read
  | Close
  deriving DecidableEq, Repr

/-! ## `compute/packages.go` -/

/-- The struct `ListPackagesInput`; its integer fields are `int64`. -/
structure ListPackagesInput where
  Name : String
  Memory : Int
  Disk : Int
  Swap : Int
  LWPs : Int
  VCPUs : Int
  Version : String
  Group : String
  deriving DecidableEq, Repr

/-- The inputs whose integer fields are values of `int64`. -/
def ListPackagesInput.WellFormed (input : ListPackagesInput) : Prop :=
  IsInt64 input.Memory ∧ IsInt64 input.Disk ∧ IsInt64 input.Swap ∧ IsInt64 input.LWPs ∧
    IsInt64 input.VCPUs

instance (input : ListPackagesInput) : Decidable input.WellFormed := by
  unfold ListPackagesInput.WellFormed; infer_instance

/-- The struct `GetPackageInput`. -/
structure GetPackageInput where
  ID : String
  deriving DecidableEq, Repr

/-- The results `([]*Package, error)` of `List` and the trace of the call. -/
structure ListOutcome where
  result : Option (List (Option Package))
  err : Option GoError
  trace : List Event
  deriving Repr

/-- The results `(*Package, error)` of `Get` and the trace of the call. -/
structure GetOutcome where
  result : Option Package
  err : Option GoError
  trace : List Event
  deriving Repr

/-- The method `PackagesClient.List` on a platform whose `int` has `intSize`
bits. -/
def PackagesClient.List (intSize : Nat) (c : Client) (input : ListPackagesInput) :
    ListOutcome :=
  let fullPath := Join ["/", c.AccountName, "packages"]
  let query := Values.empty
  let query := if input.Name ≠ "" then query.Set "name" input.Name else query
  let query :=
    if input.Memory ≠ 0 then query.Set "memory" (Itoa (toInt intSize input.Memory)) else query
  let query :=
    if input.Disk ≠ 0 then query.Set "disk" (Itoa (toInt intSize input.Disk)) else query
  let query :=
    if input.Swap ≠ 0 then query.Set "swap" (Itoa (toInt intSize input.Swap)) else query
  let query :=
    if input.LWPs ≠ 0 then query.Set "lwps" (Itoa (toInt intSize input.LWPs)) else query
  let query :=
    if input.VCPUs ≠ 0 then query.Set "vcpus" (Itoa (toInt intSize input.VCPUs)) else query
  let query := if input.Version ≠ "" then query.Set "version" input.Version else query
  let query := if input.Group ≠ "" then query.Set "group" input.Group else query
  let reqInputs : RequestInput := ⟨MethodGet, fullPath, some query⟩
  match c.ExecuteRequest reqInputs with
  | .error err =>
    ⟨none, some (.Wrap err "unable to list packages"), [.ExecuteRequest reqInputs]⟩
  | .ok respReader =>
    -- defer respReader.Close()
    let deferred := [Event.Close]
    let decoded := decodePackages respReader
    match decoded.2 with
    | some err =>
      ⟨none, some (.Wrap err "unable to decode list packages response"),
        [.ExecuteRequest reqInputs, .Read] ++ deferred⟩
    | none => ⟨decoded.1, none, [.ExecuteRequest reqInputs, .Read] ++ deferred⟩

/-- The method `PackagesClient.Get`. -/
def PackagesClient.Get (c : Client) (input : GetPackageInput) : GetOutcome :=
  let fullPath := Join ["/", c.AccountName, "packages", input.ID]
  let reqInputs : RequestInput := ⟨MethodGet, fullPath, none⟩
  match c.ExecuteRequest reqInputs with
  | .error err =>
    ⟨none, some (.Wrap err "unable to get package"), [.ExecuteRequest reqInputs]⟩
  | .ok respReader =>
    -- defer respReader.Close()
    let deferred := [Event.Close]
    let decoded := decodePackage respReader
    match decoded.2 with
    | some err =>
      ⟨none, some (.Wrap err "unable to decode get package response"),
        [.ExecuteRequest reqInputs, .Read] ++ deferred⟩
    | none => ⟨decoded.1, none, [.ExecuteRequest reqInputs, .Read] ++ deferred⟩

/-- The requests a trace holds, in order. -/
def requests : List Event → List RequestInput
  | [] => []
  | .ExecuteRequest r :: rest => r :: requests rest
  | _ :: rest => requests rest

/-! ## Auxiliary definitions for the statements -/

/-- The keys of the packages filter in the order the fields are declared. -/
def declaredKeys : List String :=
  ["name", "memory", "disk", "swap", "lwps", "vcpus", "version", "group"]

/-- The keys of the packages filter in ascending order. -/
def sortedKeys : List String :=
  ["disk", "group", "lwps", "memory", "name", "swap", "vcpus", "version"]

/-- Whether the filter field sent under `key` is set: non-empty for a string
field, non-zero for an integer field. -/
def ListPackagesInput.isSet (input : ListPackagesInput) (key : String) : Bool :=
  (key = "name" && input.Name ≠ "") || (key = "memory" && input.Memory ≠ 0) ||
  (key = "disk" && input.Disk ≠ 0) || (key = "swap" && input.Swap ≠ 0) ||
  (key = "lwps" && input.LWPs ≠ 0) || (key = "vcpus" && input.VCPUs ≠ 0) ||
  (key = "version" && input.Version ≠ "") || (key = "group" && input.Group ≠ "")

/-- The integer filter field sent under `key`, if `key` names one. -/
def ListPackagesInput.intField (input : ListPackagesInput) (key : String) : Option Int :=
  if key = "memory" then some input.Memory
  else if key = "disk" then some input.Disk
  else if key = "swap" then some input.Swap
  else if key = "lwps" then some input.LWPs
  else if key = "vcpus" then some input.VCPUs
  else none

/-- The string filter field sent under `key`, if `key` names one. -/
def ListPackagesInput.stringField (input : ListPackagesInput) (key : String) : Option String :=
  if key = "name" then some input.Name
  else if key = "version" then some input.Version
  else if key = "group" then some input.Group
  else none

/-- The value `List` passes to `Set` for `key`: the string field itself, or
`strconv.Itoa(int(field))` for an integer field. -/
def ListPackagesInput.value (input : ListPackagesInput) (intSize : Nat) (key : String) :
    String :=
  match input.stringField key, input.intField key with
  | some s, _ => s
  | none, some n => Itoa (toInt intSize n)
  | none, none => ""

/-- The entries of the query `List` builds: one per filter field that is set,
in the order of the `Set` calls (`List_requests` shows this is the query). -/
def listEntries (intSize : Nat) (input : ListPackagesInput) : List (String × List String) :=
  (declaredKeys.filter input.isSet).map fun k => (k, [input.value intSize k])

/-- The part of `List` after the request is built: `resp` is what
`ExecuteRequest` returned for `reqInputs` (`List_eq`). -/
def listAfter (reqInputs : RequestInput) (resp : Except GoError ReadCloser) : ListOutcome :=
  match resp with
  | .error err =>
    ⟨none, some (.Wrap err "unable to list packages"), [.ExecuteRequest reqInputs]⟩
  | .ok respReader =>
    match (decodePackages respReader).2 with
    | some err =>
      ⟨none, some (.Wrap err "unable to decode list packages response"),
        [.ExecuteRequest reqInputs, .Read, .Close]⟩
    | none =>
      ⟨(decodePackages respReader).1, none, [.ExecuteRequest reqInputs, .Read, .Close]⟩

/-- The part of `Get` after the request is built (`Get_eq`). -/
def getAfter (reqInputs : RequestInput) (resp : Except GoError ReadCloser) : GetOutcome :=
  match resp with
  | .error err =>
    ⟨none, some (.Wrap err "unable to get package"), [.ExecuteRequest reqInputs]⟩
  | .ok respReader =>
    match (decodePackage respReader).2 with
    | some err =>
      ⟨none, some (.Wrap err "unable to decode get package response"),
        [.ExecuteRequest reqInputs, .Read, .Close]⟩
    | none =>
      ⟨(decodePackage respReader).1, none, [.ExecuteRequest reqInputs, .Read, .Close]⟩

/-- The request `List` issues (`List_eq`). -/
def listRequest (intSize : Nat) (c : Client) (input : ListPackagesInput) : RequestInput :=
  ⟨MethodGet, Join ["/", c.AccountName, "packages"], some ⟨listEntries intSize input⟩⟩

/-- The request `Get` issues (`Get_eq`). -/
def getRequest (c : Client) (input : GetPackageInput) : RequestInput :=
  ⟨MethodGet, Join ["/", c.AccountName, "packages", input.ID], none⟩

/-- A path element `path.Clean` keeps as it is written: non-empty, without `/`,
and neither `.` nor `..`. -/
def isElement (s : List Char) : Bool :=
  decide (s ≠ []) && decide ('/' ∉ s) && decide (s ≠ ['.']) && decide (s ≠ ['.', '.'])

/-- The strings that are one or more such elements separated by single `/`:
every piece between two `/` (and before the first, after the last) is an
element. -/
def IsCleanRel (s : String) : Prop := ∀ seg ∈ s.data.splitOn '/', isElement seg = true

instance (s : String) : Decidable (IsCleanRel s) := by
  unfold IsCleanRel; infer_instance

/-- The elements `S`, each written after a `/`. -/
def slashed (S : List (List Char)) : List Char := S.flatMap fun s => '/' :: s

/-- The value of a field of a `Package`: a string, an `int64` or a bool. -/
inductive FieldValue where
  | str (s : String)
  | int (n : Int)
  | bool (b : Bool)
  deriving DecidableEq, Repr

/-- The value the field `f` of the package `p` holds. -/
def Package.get (p : Package) : Field → FieldValue
  | .ID => .str p.ID
  | .Name => .str p.Name
  | .Memory => .int p.Memory
  | .Disk => .int p.Disk
  | .Swap => .int p.Swap
  | .LWPs => .int p.LWPs
  | .VCPUs => .int p.VCPUs
  | .Version => .str p.Version
  | .Group => .str p.Group
  | .Description => .str p.Description
  | .Default => .bool p.Default

/-- Whether the JSON value is `null`. -/
def JSON.isNull : JSON → Bool
  | .null => true
  | _ => false

/-- The members of a JSON object; no members for any other value. -/
def JSON.members : JSON → List (List Char × JSON)
  | .object members => members
  | _ => []

/-- The value of a field of type `type` that the JSON value `v` denotes: a
JSON string for a string field, an integer literal within `int64` for an
`int64` field, `true` or `false` for a bool field; nothing otherwise. -/
def fieldValueOf (type : String) (v : JSON) : Option FieldValue :=
  match v with
  | .string s => if type = "string" then some (.str (String.mk s)) else none
  | .number literal => if type = "int64" then (ParseInt literal 64).map .int else none
  | .bool b => if type = "bool" then some (.bool b) else none
  | _ => none

/-- A JSON object all of whose members that name a field of `Package` (exactly,
or up to case) hold `null` or a value of the type of that field. -/
def isPackageObject (v : JSON) : Bool :=
  match v with
  | .object members =>
    members.all fun kv =>
      match findField kv.1 with
      | none => true
      | some f => kv.2.isNull || (fieldValueOf f.type kv.2).isSome
  | _ => false

/-- The last member of an object that names the field `f` and is not `null`. -/
def lastNonNull : List (List Char × JSON) → Field → Option JSON
  | [], _ => none
  | (key, v) :: rest, f =>
    match lastNonNull rest f with
    | some w => some w
    | none => if findField key = some f ∧ v.isNull = false then some v else none

/-- The value the JSON object with the members `members` gives the field `f`:
the value of the last non-null member that names the field, and the zero value
of the field when there is none. -/
def expectedField (members : List (List Char × JSON)) (f : Field) : FieldValue :=
  match lastNonNull members f with
  | some v => (fieldValueOf f.type v).getD (Package.zero.get f)
  | none => Package.zero.get f

/-- A scan that was not abandoned and, if it gave a value, left at most `n`
characters unread. -/
def Scan.Within {α : Type} (n : Nat) : Scan α → Prop
  | .ok _ rest => rest.length ≤ n
  | .stuck => False
  | _ => True

/-- The number of filter fields that are set. -/
def ListPackagesInput.setCount (input : ListPackagesInput) : Nat :=
  (declaredKeys.filter input.isSet).length

/-- A transport that answers every request with the body `body`. -/
def respondWith (account body : String) : Client :=
  ⟨account, fun _ => .ok ⟨body, none⟩⟩

/-- A transport that gives `listResp` to a request that carries a query (the
request of `List`) and `getResp` to a request without one (the request of
`Get`). -/
def respondSplit (account : String) (listResp getResp : Except GoError ReadCloser) : Client :=
  ⟨account, fun r => if r.Query.isSome then listResp else getResp⟩

/-- A transport that fails every request with an error of message `msg`. -/
def failWith (account msg : String) : Client :=
  ⟨account, fun _ => .error (.New msg)⟩



/-! ## The request `List` issues -/

theorem setEntry_append (l : List (String × List String)) (k : String) (vs : List String)
    (hk : k ∉ l.map Prod.fst) : setEntry l k vs = l ++ [(k, vs)] := by
  induction l with
  | nil => rfl
  | cons a l ih =>
    obtain ⟨a1, a2⟩ := a
    simp only [List.map_cons, List.mem_cons, not_or] at hk
    simp [setEntry, Ne.symm hk.1, ih hk.2]

theorem chain_step (input : ListPackagesInput) (intSize : Nat) (ks ks2 : List String)
    (k v : String) (c : Prop) [Decidable c] (hk : k ∉ ks) (hks : ks2 = ks ++ [k])
    (hc : input.isSet k = decide c) (hv : input.value intSize k = v) :
    (if c then
        (⟨(ks.filter input.isSet).map fun k => (k, [input.value intSize k])⟩ : Values).Set k v
      else ⟨(ks.filter input.isSet).map fun k => (k, [input.value intSize k])⟩) =
      ⟨(ks2.filter input.isSet).map fun k => (k, [input.value intSize k])⟩ := by
  have hk2 : k ∉ ((ks.filter input.isSet).map fun k =>
      (k, [input.value intSize k])).map Prod.fst := by
    simp only [List.map_map, Function.comp_def, List.map_id', List.mem_filter, not_and]
    intro h; exact absurd h hk
  subst hks
  by_cases h : c
  · simp [h, Values.Set, setEntry_append _ _ _ hk2, List.filter_append, hc, hv]
  · simp [h, List.filter_append, hc]

theorem List_eq (intSize : Nat) (c : Client) (input : ListPackagesInput) :
    PackagesClient.List intSize c input =
      listAfter (listRequest intSize c input)
        (c.ExecuteRequest (listRequest intSize c input)) := by
  unfold PackagesClient.List
  simp only []
  rw [show Values.empty =
    ⟨(([] : List String).filter input.isSet).map fun k => (k, [input.value intSize k])⟩ from rfl]
  rw [chain_step input intSize [] ["name"] "name" input.Name (input.Name ≠ "") (by decide) rfl
    (by simp [ListPackagesInput.isSet])
    (by simp [ListPackagesInput.value, ListPackagesInput.stringField])]
  rw [chain_step input intSize ["name"] ["name", "memory"] "memory" _ (input.Memory ≠ 0)
    (by decide) rfl (by simp [ListPackagesInput.isSet])
    (by simp [ListPackagesInput.value, ListPackagesInput.stringField,
      ListPackagesInput.intField])]
  rw [chain_step input intSize _ ["name", "memory", "disk"] "disk" _ (input.Disk ≠ 0)
    (by decide) rfl (by simp [ListPackagesInput.isSet])
    (by simp [ListPackagesInput.value, ListPackagesInput.stringField,
      ListPackagesInput.intField])]
  rw [chain_step input intSize _ ["name", "memory", "disk", "swap"] "swap" _ (input.Swap ≠ 0)
    (by decide) rfl (by simp [ListPackagesInput.isSet])
    (by simp [ListPackagesInput.value, ListPackagesInput.stringField,
      ListPackagesInput.intField])]
  rw [chain_step input intSize _ ["name", "memory", "disk", "swap", "lwps"] "lwps" _
    (input.LWPs ≠ 0) (by decide) rfl (by simp [ListPackagesInput.isSet])
    (by simp [ListPackagesInput.value, ListPackagesInput.stringField,
      ListPackagesInput.intField])]
  rw [chain_step input intSize _ ["name", "memory", "disk", "swap", "lwps", "vcpus"] "vcpus" _
    (input.VCPUs ≠ 0) (by decide) rfl (by simp [ListPackagesInput.isSet])
    (by simp [ListPackagesInput.value, ListPackagesInput.stringField,
      ListPackagesInput.intField])]
  rw [chain_step input intSize _ ["name", "memory", "disk", "swap", "lwps", "vcpus", "version"]
    "version" _ (input.Version ≠ "") (by decide) rfl (by simp [ListPackagesInput.isSet])
    (by simp [ListPackagesInput.value, ListPackagesInput.stringField])]
  rw [chain_step input intSize ["name", "memory", "disk", "swap", "lwps", "vcpus", "version"]
    declaredKeys "group" _ (input.Group ≠ "") (by decide) rfl
    (by simp [ListPackagesInput.isSet])
    (by simp [ListPackagesInput.value, ListPackagesInput.stringField])]
  rfl

theorem Get_eq (c : Client) (input : GetPackageInput) :
    PackagesClient.Get c input =
      getAfter (getRequest c input) (c.ExecuteRequest (getRequest c input)) := rfl

theorem listAfter_requests (r : RequestInput) (resp : Except GoError ReadCloser) :
    requests (listAfter r resp).trace = [r] := by
  unfold listAfter
  split <;> [skip; split] <;> rfl

theorem getAfter_requests (r : RequestInput) (resp : Except GoError ReadCloser) :
    requests (getAfter r resp).trace = [r] := by
  unfold getAfter
  split <;> [skip; split] <;> rfl

theorem List_requests (intSize : Nat) (c : Client) (input : ListPackagesInput) :
    requests (PackagesClient.List intSize c input).trace =
      [⟨MethodGet, Join ["/", c.AccountName, "packages"], some ⟨listEntries intSize input⟩⟩] := by
  rw [List_eq, listAfter_requests]; rfl

theorem Get_requests (c : Client) (input : GetPackageInput) :
    requests (PackagesClient.Get c input).trace =
      [⟨MethodGet, Join ["/", c.AccountName, "packages", input.ID], none⟩] := by
  rw [Get_eq, getAfter_requests]; rfl

theorem listEntries_keys (intSize : Nat) (input : ListPackagesInput) :
    (⟨listEntries intSize input⟩ : Values).keys = declaredKeys.filter input.isSet := by
  simp [Values.keys, listEntries, Function.comp_def]

/-- C1: the query `List` hands to `ExecuteRequest` has the key of a filter
field exactly when that field is non-empty (strings) or non-zero (integers) and
has no other key; each key occurs once, the number of keys is the number of
fields that are set, and the query is empty exactly when no field is set. -/
theorem C1_list_query_keys (intSize : Nat) (c : Client) (input : ListPackagesInput) :
    ∃ q : Values,
      requests (PackagesClient.List intSize c input).trace =
        [⟨MethodGet, Join ["/", c.AccountName, "packages"], some q⟩] ∧
      (∀ key : String, q.Has key ↔
        (key = "name" ∧ input.Name ≠ "") ∨ (key = "memory" ∧ input.Memory ≠ 0) ∨
        (key = "disk" ∧ input.Disk ≠ 0) ∨ (key = "swap" ∧ input.Swap ≠ 0) ∨
        (key = "lwps" ∧ input.LWPs ≠ 0) ∨ (key = "vcpus" ∧ input.VCPUs ≠ 0) ∨
        (key = "version" ∧ input.Version ≠ "") ∨ (key = "group" ∧ input.Group ≠ "")) ∧
      q.keys.Nodup ∧
      q.keys.length = input.setCount ∧
      (q = Values.empty ↔ input.setCount = 0) ∧
      (input.setCount = 0 ↔
        input.Name = "" ∧ input.Memory = 0 ∧ input.Disk = 0 ∧ input.Swap = 0 ∧
        input.LWPs = 0 ∧ input.VCPUs = 0 ∧ input.Version = "" ∧ input.Group = "") := by
  refine ⟨⟨listEntries intSize input⟩, List_requests intSize c input, ?_, ?_, ?_, ?_, ?_⟩
  · intro key
    rw [Values.Has, listEntries_keys]
    simp only [List.mem_filter, declaredKeys, ListPackagesInput.isSet, Bool.or_eq_true,
      Bool.and_eq_true, decide_eq_true_eq, or_assoc]
    constructor
    · rintro ⟨-, h⟩
      exact h
    · intro h
      refine ⟨?_, h⟩
      rcases h with h | h | h | h | h | h | h | h <;> simp [h.1]
  · rw [listEntries_keys]
    exact List.Nodup.filter _ (by decide)
  · rw [listEntries_keys]; rfl
  · simp [Values.empty, listEntries, ListPackagesInput.setCount]
  · simp [ListPackagesInput.setCount, declaredKeys, List.filter_eq_nil_iff,
      ListPackagesInput.isSet]

/-! ## The order of the keys -/

theorem strLE_total (a b : List Char) : strLE a b = true ∨ strLE b a = true := by
  induction a generalizing b with
  | nil => simp [strLE]
  | cons x xs ih =>
    cases b with
    | nil => simp [strLE]
    | cons y ys =>
      simp only [strLE, Bool.or_eq_true, Bool.and_eq_true, decide_eq_true_eq]
      rcases Nat.lt_trichotomy x.toNat y.toNat with h | h | h
      · exact Or.inl (Or.inl h)
      · rcases ih ys with h2 | h2
        · exact Or.inl (Or.inr ⟨h, h2⟩)
        · exact Or.inr (Or.inr ⟨h.symm, h2⟩)
      · exact Or.inr (Or.inl h)

theorem strLE_trans (a b c : List Char) (hab : strLE a b = true) (hbc : strLE b c = true) :
    strLE a c = true := by
  induction a generalizing b c with
  | nil => simp [strLE]
  | cons x xs ih =>
    cases b with
    | nil => simp [strLE] at hab
    | cons y ys =>
      cases c with
      | nil => simp [strLE] at hbc
      | cons z zs =>
        simp only [strLE, Bool.or_eq_true, Bool.and_eq_true, decide_eq_true_eq] at hab hbc ⊢
        rcases hab with h1 | ⟨h1, h1'⟩ <;> rcases hbc with h2 | ⟨h2, h2'⟩
        · exact Or.inl (by omega)
        · exact Or.inl (by omega)
        · exact Or.inl (by omega)
        · exact Or.inr ⟨by omega, ih ys zs h1' h2'⟩

theorem char_toNat_inj (x y : Char) (h : x.toNat = y.toNat) : x = y := by
  apply Char.ext
  apply UInt32.ext
  exact h

theorem strLE_antisymm (a b : List Char) (hab : strLE a b = true) (hba : strLE b a = true) :
    a = b := by
  induction a generalizing b with
  | nil =>
    cases b with
    | nil => rfl
    | cons y ys => simp [strLE] at hba
  | cons x xs ih =>
    cases b with
    | nil => simp [strLE] at hab
    | cons y ys =>
      simp only [strLE, Bool.or_eq_true, Bool.and_eq_true, decide_eq_true_eq] at hab hba
      rcases hab with h1 | ⟨h1, h1'⟩ <;> rcases hba with h2 | ⟨h2, h2'⟩
      · omega
      · omega
      · omega
      · rw [char_toNat_inj x y h1, ih ys h1' h2']

instance keyLE_total : IsTotal String fun a b => strLE a.data b.data = true :=
  ⟨fun a b => strLE_total a.data b.data⟩

instance keyLE_trans : IsTrans String fun a b => strLE a.data b.data = true :=
  ⟨fun a b c => strLE_trans a.data b.data c.data⟩

instance keyLE_antisymm : IsAntisymm String fun a b => strLE a.data b.data = true :=
  ⟨fun a b h1 h2 => String.ext (strLE_antisymm a.data b.data h1 h2)⟩

theorem sort_filter_declaredKeys (p : String → Bool) :
    (declaredKeys.filter p).insertionSort (fun a b => strLE a.data b.data = true) =
      sortedKeys.filter p := by
  apply List.eq_of_perm_of_sorted (r := fun a b => strLE a.data b.data = true)
  · exact (List.perm_insertionSort _ _).trans (List.Perm.filter p (by decide))
  · exact List.sorted_insertionSort _ _
  · exact List.Sorted.filter p (by decide)

theorem find_map_key (g : String → List String) (l : List String) (k : String) (hk : k ∈ l) :
    (l.map fun k => (k, g k)).find? (fun kv => kv.1 = k) = some (k, g k) := by
  induction l with
  | nil => cases hk
  | cons a l ih =>
    by_cases h : a = k
    · simp [h]
    · have hk2 : k ∈ l := by
        rcases List.mem_cons.1 hk with h2 | h2
        · exact absurd h2.symm h
        · exact h2
      simp [h, ih hk2]

theorem listEntries_lookup (intSize : Nat) (input : ListPackagesInput) (k : String)
    (hk : k ∈ declaredKeys.filter input.isSet) :
    (⟨listEntries intSize input⟩ : Values).lookup k = [input.value intSize k] := by
  unfold Values.lookup listEntries
  rw [find_map_key _ _ k hk]

theorem listEntries_Encode (intSize : Nat) (input : ListPackagesInput) :
    (⟨listEntries intSize input⟩ : Values).Encode =
      "&".intercalate ((sortedKeys.filter input.isSet).map fun k =>
        QueryEscape k ++ "=" ++ QueryEscape (input.value intSize k)) := by
  unfold Values.Encode
  rw [listEntries_keys, sort_filter_declaredKeys, List.flatMap_def]
  congr 1
  have h : ((sortedKeys.filter input.isSet).map fun k =>
      ((⟨listEntries intSize input⟩ : Values).lookup k).map fun value =>
        QueryEscape k ++ "=" ++ QueryEscape value) =
      (sortedKeys.filter input.isSet).map fun k =>
        [QueryEscape k ++ "=" ++ QueryEscape (input.value intSize k)] := by
    apply List.map_congr_left
    intro k hk
    have hk2 : k ∈ declaredKeys.filter input.isSet := by
      rw [List.mem_filter] at hk ⊢
      refine ⟨?_, hk.2⟩
      have hp : List.Perm sortedKeys declaredKeys := by decide
      exact hp.subset hk.1
    rw [listEntries_lookup intSize input k hk2]
    rfl
  rw [h]
  generalize sortedKeys.filter input.isSet = l
  induction l with
  | nil => rfl
  | cons a l ih => simp [List.flatten, ih]

/-- C2 (as stated, refuted): with the name and memory filters set, the query
string `url.Values.Encode` produces is `memory=1&name=a`; the declared field
order would give `name=a&memory=1`. -/
theorem C2_declared_order_counterexample :
    ∃ q : Values,
      requests (PackagesClient.List 64 (respondWith "acct" "[]")
        ⟨"a", 1, 0, 0, 0, 0, "", ""⟩).trace = [⟨MethodGet, "/acct/packages", some q⟩] ∧
      q.Encode = "memory=1&name=a" ∧
      "&".intercalate ((declaredKeys.filter
        (ListPackagesInput.isSet ⟨"a", 1, 0, 0, 0, 0, "", ""⟩)).flatMap fun k =>
          (q.lookup k).map fun value => QueryEscape k ++ "=" ++ QueryEscape value) =
        "name=a&memory=1" ∧
      q.Encode ≠ "&".intercalate ((declaredKeys.filter
        (ListPackagesInput.isSet ⟨"a", 1, 0, 0, 0, 0, "", ""⟩)).flatMap fun k =>
          (q.lookup k).map fun value => QueryEscape k ++ "=" ++ QueryEscape value) :=
  ⟨⟨[("name", ["a"]), ("memory", ["1"])]⟩, by rfl, by decide, by decide, by decide⟩

/-- C2 (amended): the `Set` calls of `List` are made in the declared field
order name, memory, disk, swap, lwps, vcpus, version, group, restricted to the
fields that are set, and the URL query string the query serialises to
(`url.Values.Encode`) lists the same parameters in ascending order of the key:
disk, group, lwps, memory, name, swap, vcpus, version. -/
theorem C2_list_query_order (intSize : Nat) (c : Client) (input : ListPackagesInput) :
    ∃ q : Values,
      requests (PackagesClient.List intSize c input).trace =
        [⟨MethodGet, Join ["/", c.AccountName, "packages"], some q⟩] ∧
      q.keys = declaredKeys.filter input.isSet ∧
      q.Encode = "&".intercalate ((sortedKeys.filter input.isSet).map fun k =>
        QueryEscape k ++ "=" ++ QueryEscape (input.value intSize k)) :=
  ⟨⟨listEntries intSize input⟩, List_requests intSize c input,
    listEntries_keys intSize input, listEntries_Encode intSize input⟩

/-! ## The values of the query parameters -/

theorem digitVal_digitChar (d : Nat) (h : d < 10) : digitVal (digitChar d) = some d := by
  interval_cases d <;> decide

theorem parseDigits_append (a : Nat) (xs ys : List Char) :
    parseDigits a (xs ++ ys) = (parseDigits a xs).bind fun n => parseDigits n ys := by
  induction xs generalizing a with
  | nil => rfl
  | cons x xs ih =>
    simp only [List.cons_append, parseDigits]
    cases digitVal x with
    | none => rfl
    | some d => exact ih _

/-- The digit loop of `FormatInt` terminates within its fuel and writes a
non-empty run of digits that `parseDigits` reads back. -/
theorem formatUintAux_spec (fuel u : Nat) (acc : List Char) (h : u < fuel) :
    ∃ ds : List Char, formatUintAux fuel u acc = ds ++ acc ∧ ds ≠ [] ∧
      (∀ c ∈ ds, (digitVal c).isSome) ∧
      ∀ a, parseDigits a ds = some (a * 10 ^ ds.length + u) := by
  induction fuel generalizing u acc with
  | zero => omega
  | succ fuel ih =>
    unfold formatUintAux
    by_cases hu : u < 10
    · refine ⟨[digitChar u], by simp [hu], by simp, ?_, ?_⟩
      · intro c hc
        rw [List.mem_singleton.1 hc, digitVal_digitChar u hu]; rfl
      · intro a
        simp [parseDigits, digitVal_digitChar u hu]
    · obtain ⟨ds, h1, h2, h3, h4⟩ := ih (u / 10) (digitChar (u % 10) :: acc) (by omega)
      have hd := digitVal_digitChar (u % 10) (by omega)
      refine ⟨ds ++ [digitChar (u % 10)], by simp [hu, h1], by simp, ?_, ?_⟩
      · intro c hc
        rcases List.mem_append.1 hc with hc | hc
        · exact h3 c hc
        · rw [List.mem_singleton.1 hc, hd]; rfl
      · intro a
        rw [parseDigits_append, h4 a]
        simp only [Option.bind, parseDigits, hd, List.length_append, List.length_singleton]
        congr 1
        rw [pow_succ]
        have := Nat.div_add_mod u 10
        nlinarith [Nat.div_add_mod u 10]

theorem formatUint_spec (u : Nat) :
    formatUint u ≠ [] ∧ (∀ c ∈ formatUint u, (digitVal c).isSome) ∧
      parseDigits 0 (formatUint u) = some u := by
  obtain ⟨ds, h1, h2, h3, h4⟩ := formatUintAux_spec (u + 1) u [] (by omega)
  have h5 : formatUint u = ds := by simp [formatUint, h1]
  rw [h5]
  exact ⟨h2, h3, by simpa using h4 0⟩

/-- Parsing what `FormatInt` writes gives the number back, for every `int64`. -/
theorem ParseInt_FormatInt (x : Int) (hx : IsInt64 x) :
    ParseInt (FormatInt x).data 64 = some x := by
  obtain ⟨hlo, hhi⟩ := hx
  by_cases hneg : x < 0
  · obtain ⟨h1, h2, h3⟩ := formatUint_spec (-x).toNat
    have hn : ((-x).toNat : Int) = -x := Int.toNat_of_nonneg (by omega)
    have hle : (-x).toNat ≤ 2 ^ (64 - 1) := by
      have : ((-x).toNat : Int) ≤ 2 ^ 63 := by omega
      exact_mod_cast this
    simp only [FormatInt, hneg, if_true, ParseInt, List.head?_cons, List.tail_cons, or_true,
      h1, if_false, h3, hle]
    simp [hn]
  · obtain ⟨h1, h2, h3⟩ := formatUint_spec x.toNat
    have hn : (x.toNat : Int) = x := Int.toNat_of_nonneg (by omega)
    have hlt : x.toNat < 2 ^ (64 - 1) := by
      have : (x.toNat : Int) < 2 ^ 63 := by omega
      exact_mod_cast this
    obtain ⟨c, cs, hc⟩ := List.exists_cons_of_ne_nil h1
    have hcd : (digitVal c).isSome := h2 c (by rw [hc]; exact List.mem_cons_self _ _)
    have hc1 : c ≠ '-' := by
      intro h; rw [h] at hcd; exact absurd hcd (by decide)
    have hc2 : c ≠ '+' := by
      intro h; rw [h] at hcd; exact absurd hcd (by decide)
    have h3' : parseDigits 0 (c :: cs) = some x.toNat := hc ▸ h3
    simp only [FormatInt, hneg, if_false, ParseInt, hc, List.head?_cons, Option.some.injEq,
      hc1, hc2, or_self, h3', hlt, if_true]
    simp [hn]

/-- Where `int` has 64 bits, the conversion `int(x)` of an `int64` keeps the
value. -/
theorem toInt_64 (x : Int) (hx : IsInt64 x) : toInt 64 x = x := by
  obtain ⟨hlo, hhi⟩ := hx
  unfold toInt
  have h : (x + 2 ^ (64 - 1)) % 2 ^ 64 = x + 2 ^ (64 - 1) :=
    Int.emod_eq_of_lt (by norm_num; omega) (by norm_num; omega)
  rw [h]; ring

/-- Every key of the query `List` builds carries exactly one value: the filter
string itself for name, version and group, and `strconv.Itoa(int(field))` for
memory, disk, swap, lwps and vcpus. -/
theorem List_query_values (intSize : Nat) (c : Client) (input : ListPackagesInput) :
    ∃ q : Values,
      requests (PackagesClient.List intSize c input).trace =
        [⟨MethodGet, Join ["/", c.AccountName, "packages"], some q⟩] ∧
      ∀ key : String, q.Has key →
        ∃ value : String, q.lookup key = [value] ∧
          (∀ s, input.stringField key = some s → value = s) ∧
          (∀ n, input.intField key = some n → value = Itoa (toInt intSize n)) := by
  refine ⟨⟨listEntries intSize input⟩, List_requests intSize c input, ?_⟩
  intro key hkey
  rw [Values.Has, listEntries_keys] at hkey
  refine ⟨input.value intSize key, listEntries_lookup intSize input key hkey, ?_, ?_⟩
  · intro s hs
    simp [ListPackagesInput.value, hs]
  · intro n hn
    have hkd : key ∈ declaredKeys := (List.mem_filter.1 hkey).1
    have hs : input.stringField key = none := by
      unfold ListPackagesInput.intField at hn
      unfold ListPackagesInput.stringField
      simp only [declaredKeys, List.mem_cons, List.mem_singleton, List.not_mem_nil,
        or_false] at hkd
      rcases hkd with h | h | h | h | h | h | h | h <;> subst h <;> simp at hn ⊢
    simp [ListPackagesInput.value, hs, hn]

/-- Where `int` has 64 bits the integer parameters are exact: for every
well-formed filter, the value sent for memory, disk, swap, lwps or vcpus is the
decimal representation of the `int64` field, and parsing it gives the field
again. -/
theorem List_int_values_64bit (c : Client) (input : ListPackagesInput)
    (hwf : input.WellFormed) :
    ∃ q : Values,
      requests (PackagesClient.List 64 c input).trace =
        [⟨MethodGet, Join ["/", c.AccountName, "packages"], some q⟩] ∧
      ∀ key : String, q.Has key → ∀ n, input.intField key = some n →
        q.lookup key = [FormatInt n] ∧ ParseInt (FormatInt n).data 64 = some n := by
  obtain ⟨q, hq, hv⟩ := List_query_values 64 c input
  refine ⟨q, hq, ?_⟩
  intro key hkey n hn
  obtain ⟨value, h1, -, h3⟩ := hv key hkey
  have hn64 : IsInt64 n := by
    obtain ⟨w1, w2, w3, w4, w5⟩ := hwf
    unfold ListPackagesInput.intField at hn
    split_ifs at hn <;> simp only [Option.some.injEq] at hn <;> subst hn <;> assumption
  rw [h1, h3 n hn, Itoa, toInt_64 n hn64]
  exact ⟨rfl, ParseInt_FormatInt n hn64⟩

/-- An instance: the smallest `int64` as memory filter. -/
theorem List_int_values_64bit_witness :
    ListPackagesInput.WellFormed ⟨"", -9223372036854775808, 0, 0, 0, 0, "", ""⟩ ∧
    ∃ q : Values,
      requests (PackagesClient.List 64 (respondWith "acct" "[]")
        ⟨"", -9223372036854775808, 0, 0, 0, 0, "", ""⟩).trace =
        [⟨MethodGet, Join ["/", "acct", "packages"], some q⟩] ∧
      ∀ key : String, q.Has key → ∀ n,
        ListPackagesInput.intField ⟨"", -9223372036854775808, 0, 0, 0, 0, "", ""⟩ key = some n →
        q.lookup key = [FormatInt n] ∧ ParseInt (FormatInt n).data 64 = some n :=
  ⟨by decide, List_int_values_64bit _ _ (by decide)⟩

/-- C10 (defect where `int` has 32 bits): for the well-formed filter with
`Memory = 4294967296` the conversion `int(input.Memory)` wraps to 0, so the
value sent under `memory` is `"0"`, which parses to 0 and not to the field; with
`Memory = 2147483648` the value sent is `"-2147483648"`. -/
theorem C10_int_conversion_truncates_on_32bit :
    ListPackagesInput.WellFormed ⟨"", 4294967296, 0, 0, 0, 0, "", ""⟩ ∧
    (∃ q : Values,
      requests (PackagesClient.List 32 (respondWith "acct" "[]")
        ⟨"", 4294967296, 0, 0, 0, 0, "", ""⟩).trace =
        [⟨MethodGet, "/acct/packages", some q⟩] ∧
      q.lookup "memory" = ["0"] ∧
      ParseInt "0".data 64 = some 0 ∧ ParseInt "0".data 64 ≠ some 4294967296) ∧
    (∃ q : Values,
      requests (PackagesClient.List 32 (respondWith "acct" "[]")
        ⟨"", 2147483648, 0, 0, 0, 0, "", ""⟩).trace =
        [⟨MethodGet, "/acct/packages", some q⟩] ∧
      q.lookup "memory" = ["-2147483648"]) :=
  ⟨by decide, ⟨⟨[("memory", ["0"])]⟩, by rfl, by decide, by decide, by decide⟩,
    ⟨⟨[("memory", ["-2147483648"])]⟩, by rfl, by decide⟩⟩

/-! ## Error messages -/

theorem Error_Wrap (cause : GoError) (message : String) :
    (GoError.Wrap cause message).Error = message ++ ": " ++ cause.Error := rfl

theorem Contains_wrap (cause : GoError) (message : String) :
    Contains (GoError.Wrap cause message).Error message := by
  unfold Contains
  rw [Error_Wrap, String.data_append, String.data_append, List.append_assoc]
  exact List.infix_append' [] _ _

theorem HasPrefix_wrap (cause : GoError) (message : String) :
    HasPrefix (GoError.Wrap cause message).Error message := by
  unfold HasPrefix
  rw [Error_Wrap, String.data_append, String.data_append, List.append_assoc]
  exact List.prefix_append _ _


/-- The phrase of a decode failure of `List` occurs in a transport failure message only inside the cause. -/
theorem decode_list_phrase_in_list_message (m : List Char) :
    ['u', 'n', 'a', 'b', 'l', 'e', ' ', 't', 'o', ' ', 'd', 'e', 'c', 'o', 'd', 'e', ' ', 'l', 'i', 's', 't', ' ', 'p', 'a', 'c', 'k', 'a', 'g', 'e', 's', ' ', 'r', 'e', 's', 'p', 'o', 'n', 's', 'e'] <:+:
      ['u', 'n', 'a', 'b', 'l', 'e', ' ', 't', 'o', ' ', 'l', 'i', 's', 't', ' ', 'p', 'a', 'c', 'k', 'a', 'g', 'e', 's', ':', ' '] ++ m ↔
    ['u', 'n', 'a', 'b', 'l', 'e', ' ', 't', 'o', ' ', 'd', 'e', 'c', 'o', 'd', 'e', ' ', 'l', 'i', 's', 't', ' ', 'p', 'a', 'c', 'k', 'a', 'g', 'e', 's', ' ', 'r', 'e', 's', 'p', 'o', 'n', 's', 'e'] <:+: m := by
  simp [List.infix_cons_iff, List.cons_prefix_cons]

/-- The phrase of a transport failure of `List` occurs in a decode failure message only inside the cause. -/
theorem list_phrase_in_decode_list_message (m : List Char) :
    ['u', 'n', 'a', 'b', 'l', 'e', ' ', 't', 'o', ' ', 'l', 'i', 's', 't', ' ', 'p', 'a', 'c', 'k', 'a', 'g', 'e', 's'] <:+:
      ['u', 'n', 'a', 'b', 'l', 'e', ' ', 't', 'o', ' ', 'd', 'e', 'c', 'o', 'd', 'e', ' ', 'l', 'i', 's', 't', ' ', 'p', 'a', 'c', 'k', 'a', 'g', 'e', 's', ' ', 'r', 'e', 's', 'p', 'o', 'n', 's', 'e', ':', ' '] ++ m ↔
    ['u', 'n', 'a', 'b', 'l', 'e', ' ', 't', 'o', ' ', 'l', 'i', 's', 't', ' ', 'p', 'a', 'c', 'k', 'a', 'g', 'e', 's'] <:+: m := by
  simp [List.infix_cons_iff, List.cons_prefix_cons]

/-- The phrase of a decode failure of `Get` occurs in a transport failure message only inside the cause. -/
theorem decode_get_phrase_in_get_message (m : List Char) :
    ['u', 'n', 'a', 'b', 'l', 'e', ' ', 't', 'o', ' ', 'd', 'e', 'c', 'o', 'd', 'e', ' ', 'g', 'e', 't', ' ', 'p', 'a', 'c', 'k', 'a', 'g', 'e', ' ', 'r', 'e', 's', 'p', 'o', 'n', 's', 'e'] <:+:
      ['u', 'n', 'a', 'b', 'l', 'e', ' ', 't', 'o', ' ', 'g', 'e', 't', ' ', 'p', 'a', 'c', 'k', 'a', 'g', 'e', ':', ' '] ++ m ↔
    ['u', 'n', 'a', 'b', 'l', 'e', ' ', 't', 'o', ' ', 'd', 'e', 'c', 'o', 'd', 'e', ' ', 'g', 'e', 't', ' ', 'p', 'a', 'c', 'k', 'a', 'g', 'e', ' ', 'r', 'e', 's', 'p', 'o', 'n', 's', 'e'] <:+: m := by
  simp [List.infix_cons_iff, List.cons_prefix_cons]

/-- The phrase of a transport failure of `Get` occurs in a decode failure message only inside the cause. -/
theorem get_phrase_in_decode_get_message (m : List Char) :
    ['u', 'n', 'a', 'b', 'l', 'e', ' ', 't', 'o', ' ', 'g', 'e', 't', ' ', 'p', 'a', 'c', 'k', 'a', 'g', 'e'] <:+:
      ['u', 'n', 'a', 'b', 'l', 'e', ' ', 't', 'o', ' ', 'd', 'e', 'c', 'o', 'd', 'e', ' ', 'g', 'e', 't', ' ', 'p', 'a', 'c', 'k', 'a', 'g', 'e', ' ', 'r', 'e', 's', 'p', 'o', 'n', 's', 'e', ':', ' '] ++ m ↔
    ['u', 'n', 'a', 'b', 'l', 'e', ' ', 't', 'o', ' ', 'g', 'e', 't', ' ', 'p', 'a', 'c', 'k', 'a', 'g', 'e'] <:+: m := by
  simp [List.infix_cons_iff, List.cons_prefix_cons]

/-- C4: for every error `e`, when the `ExecuteRequest` call of `List` returns
`e`, `List` returns a nil result and the error
`errors.Wrap(e, "unable to list packages")`, whose message is
`unable to list packages: ` followed by the message of `e`; and when the
`ExecuteRequest` call of `Get` returns `e`, `Get` returns a nil result and an
error whose message is `unable to get package: ` followed by the message of
`e`. The message contains the phrase of the operation. The two halves are
independent: each needs only the failure of its own request. -/
theorem C4_transport_error_wrapped (intSize : Nat) (c : Client) (input : ListPackagesInput)
    (gi : GetPackageInput) :
    (∀ e : GoError,
      (∀ r ∈ requests (PackagesClient.List intSize c input).trace,
        c.ExecuteRequest r = .error e) →
      (PackagesClient.List intSize c input).result = none ∧
      ∃ err, (PackagesClient.List intSize c input).err = some err ∧
        err = .Wrap e "unable to list packages" ∧
        err.Error = "unable to list packages: " ++ e.Error ∧
        Contains err.Error "unable to list packages") ∧
    (∀ e : GoError,
      (∀ r ∈ requests (PackagesClient.Get c gi).trace, c.ExecuteRequest r = .error e) →
      (PackagesClient.Get c gi).result = none ∧
      ∃ err, (PackagesClient.Get c gi).err = some err ∧
        err = .Wrap e "unable to get package" ∧
        err.Error = "unable to get package: " ++ e.Error ∧
        Contains err.Error "unable to get package") := by
  constructor
  · intro e hList
    have h1 : c.ExecuteRequest (listRequest intSize c input) = .error e :=
      hList _ (by rw [List_requests]; exact List.mem_singleton.2 rfl)
    rw [List_eq, h1]
    refine ⟨rfl, _, rfl, rfl, ?_, Contains_wrap _ _⟩
    rw [Error_Wrap, String.append_assoc]; rfl
  · intro e hGet
    have h2 : c.ExecuteRequest (getRequest c gi) = .error e :=
      hGet _ (by rw [Get_requests]; exact List.mem_singleton.2 rfl)
    rw [Get_eq, h2]
    refine ⟨rfl, _, rfl, rfl, ?_, Contains_wrap _ _⟩
    rw [Error_Wrap, String.append_assoc]; rfl

/-- An instance: a transport that refuses the request of `List` and answers the
request of `Get`, and a transport that answers `List` and refuses `Get`. -/
theorem C4_transport_error_wrapped_witness :
    (∀ r ∈ requests (PackagesClient.List 64
        (respondSplit "acct" (.error (.New "connection refused")) (.ok ⟨"null", none⟩))
        ⟨"", 0, 0, 0, 0, 0, "", ""⟩).trace,
      (respondSplit "acct" (.error (.New "connection refused"))
        (.ok ⟨"null", none⟩)).ExecuteRequest r = .error (.New "connection refused")) ∧
    (∀ r ∈ requests (PackagesClient.Get
        (respondSplit "acct" (.ok ⟨"[]", none⟩) (.error (.New "connection refused")))
        ⟨"k4"⟩).trace,
      (respondSplit "acct" (.ok ⟨"[]", none⟩)
        (.error (.New "connection refused"))).ExecuteRequest r =
        .error (.New "connection refused")) ∧
    ((PackagesClient.List 64
        (respondSplit "acct" (.error (.New "connection refused")) (.ok ⟨"null", none⟩))
        ⟨"", 0, 0, 0, 0, 0, "", ""⟩).result = none ∧
      ∃ err, (PackagesClient.List 64
          (respondSplit "acct" (.error (.New "connection refused")) (.ok ⟨"null", none⟩))
          ⟨"", 0, 0, 0, 0, 0, "", ""⟩).err = some err ∧
        err = .Wrap (.New "connection refused") "unable to list packages" ∧
        err.Error = "unable to list packages: " ++ (GoError.New "connection refused").Error ∧
        Contains err.Error "unable to list packages") ∧
    ((PackagesClient.Get
        (respondSplit "acct" (.ok ⟨"[]", none⟩) (.error (.New "connection refused")))
        ⟨"k4"⟩).result = none ∧
      ∃ err, (PackagesClient.Get
          (respondSplit "acct" (.ok ⟨"[]", none⟩) (.error (.New "connection refused")))
          ⟨"k4"⟩).err = some err ∧
        err = .Wrap (.New "connection refused") "unable to get package" ∧
        err.Error = "unable to get package: " ++ (GoError.New "connection refused").Error ∧
        Contains err.Error "unable to get package") :=
  ⟨by intro r hr; rw [List_requests] at hr; rw [List.mem_singleton.1 hr]; rfl,
    by intro r hr; rw [Get_requests] at hr; rw [List.mem_singleton.1 hr]; rfl,
    (C4_transport_error_wrapped 64
      (respondSplit "acct" (.error (.New "connection refused")) (.ok ⟨"null", none⟩))
      ⟨"", 0, 0, 0, 0, 0, "", ""⟩ ⟨"k4"⟩).1 (.New "connection refused")
      (by intro r hr; rw [List_requests] at hr; rw [List.mem_singleton.1 hr]; rfl),
    (C4_transport_error_wrapped 64
      (respondSplit "acct" (.ok ⟨"[]", none⟩) (.error (.New "connection refused")))
      ⟨"", 0, 0, 0, 0, 0, "", ""⟩ ⟨"k4"⟩).2 (.New "connection refused")
      (by intro r hr; rw [Get_requests] at hr; rw [List.mem_singleton.1 hr]; rfl)⟩

/-- C5: when the `ExecuteRequest` call of `List` succeeds with an empty response
body, `List` returns a nil result and a decode error whose message is the
decode phrase `unable to decode list packages response`, then `: `, then the
decoder's `EOF`; when the `ExecuteRequest` call of `Get` succeeds with an empty
response body, `Get` does the same with `unable to decode get package response`.
The message contains `EOF`. The two halves are independent: each needs only the
empty body of its own response. -/
theorem C5_empty_body_EOF (intSize : Nat) (c : Client) (input : ListPackagesInput)
    (gi : GetPackageInput) :
    ((∀ r ∈ requests (PackagesClient.List intSize c input).trace,
        c.ExecuteRequest r = .ok ⟨"", none⟩) →
      (PackagesClient.List intSize c input).result = none ∧
      ∃ err, (PackagesClient.List intSize c input).err = some err ∧
        err = .Wrap EOF "unable to decode list packages response" ∧
        err.Error = "unable to decode list packages response: EOF" ∧
        Contains err.Error "EOF") ∧
    ((∀ r ∈ requests (PackagesClient.Get c gi).trace,
        c.ExecuteRequest r = .ok ⟨"", none⟩) →
      (PackagesClient.Get c gi).result = none ∧
      ∃ err, (PackagesClient.Get c gi).err = some err ∧
        err = .Wrap EOF "unable to decode get package response" ∧
        err.Error = "unable to decode get package response: EOF" ∧
        Contains err.Error "EOF") := by
  constructor
  · intro hList
    have h1 : c.ExecuteRequest (listRequest intSize c input) = .ok ⟨"", none⟩ :=
      hList _ (by rw [List_requests]; exact List.mem_singleton.2 rfl)
    rw [List_eq, h1]
    exact ⟨rfl, _, rfl, rfl, by decide, by decide⟩
  · intro hGet
    have h2 : c.ExecuteRequest (getRequest c gi) = .ok ⟨"", none⟩ :=
      hGet _ (by rw [Get_requests]; exact List.mem_singleton.2 rfl)
    rw [Get_eq, h2]
    exact ⟨rfl, _, rfl, rfl, by decide, by decide⟩

/-- An instance: a transport that answers `List` with an empty body and `Get`
with the body `null`, and a transport that answers `List` with `[]` and `Get`
with an empty body. -/
theorem C5_empty_body_EOF_witness :
    (∀ r ∈ requests (PackagesClient.List 64
        (respondSplit "acct" (.ok ⟨"", none⟩) (.ok ⟨"null", none⟩))
        ⟨"", 0, 0, 0, 0, 0, "", ""⟩).trace,
      (respondSplit "acct" (.ok ⟨"", none⟩) (.ok ⟨"null", none⟩)).ExecuteRequest r =
        .ok ⟨"", none⟩) ∧
    (∀ r ∈ requests (PackagesClient.Get
        (respondSplit "acct" (.ok ⟨"[]", none⟩) (.ok ⟨"", none⟩)) ⟨"k4"⟩).trace,
      (respondSplit "acct" (.ok ⟨"[]", none⟩) (.ok ⟨"", none⟩)).ExecuteRequest r =
        .ok ⟨"", none⟩) ∧
    ((PackagesClient.List 64 (respondSplit "acct" (.ok ⟨"", none⟩) (.ok ⟨"null", none⟩))
        ⟨"", 0, 0, 0, 0, 0, "", ""⟩).result = none ∧
      ∃ err, (PackagesClient.List 64
          (respondSplit "acct" (.ok ⟨"", none⟩) (.ok ⟨"null", none⟩))
          ⟨"", 0, 0, 0, 0, 0, "", ""⟩).err = some err ∧
        err = .Wrap EOF "unable to decode list packages response" ∧
        err.Error = "unable to decode list packages response: EOF" ∧
        Contains err.Error "EOF") ∧
    ((PackagesClient.Get (respondSplit "acct" (.ok ⟨"[]", none⟩) (.ok ⟨"", none⟩))
        ⟨"k4"⟩).result = none ∧
      ∃ err, (PackagesClient.Get (respondSplit "acct" (.ok ⟨"[]", none⟩) (.ok ⟨"", none⟩))
          ⟨"k4"⟩).err = some err ∧
        err = .Wrap EOF "unable to decode get package response" ∧
        err.Error = "unable to decode get package response: EOF" ∧
        Contains err.Error "EOF") :=
  ⟨by intro r hr; rw [List_requests] at hr; rw [List.mem_singleton.1 hr]; rfl,
    by intro r hr; rw [Get_requests] at hr; rw [List.mem_singleton.1 hr]; rfl,
    (C5_empty_body_EOF 64 (respondSplit "acct" (.ok ⟨"", none⟩) (.ok ⟨"null", none⟩))
      ⟨"", 0, 0, 0, 0, 0, "", ""⟩ ⟨"k4"⟩).1
      (by intro r hr; rw [List_requests] at hr; rw [List.mem_singleton.1 hr]; rfl),
    (C5_empty_body_EOF 64 (respondSplit "acct" (.ok ⟨"[]", none⟩) (.ok ⟨"", none⟩))
      ⟨"", 0, 0, 0, 0, 0, "", ""⟩ ⟨"k4"⟩).2
      (by intro r hr; rw [Get_requests] at hr; rw [List.mem_singleton.1 hr]; rfl)⟩

/-! ## Telling transport and decode failures apart -/

/-- C6 (as stated, refuted): a transport error whose own message is the decode
phrase makes `List` return a transport failure message that contains
`unable to decode list packages response`; and a stream that breaks with an
error whose message is the list phrase makes `List` return a decode failure
message that contains `unable to list packages`. -/
theorem C6_substring_counterexample :
    (∃ err, (PackagesClient.List 64 (failWith "acct" "unable to decode list packages response")
        ⟨"", 0, 0, 0, 0, 0, "", ""⟩).err = some err ∧
      (PackagesClient.List 64 (failWith "acct" "unable to decode list packages response")
        ⟨"", 0, 0, 0, 0, 0, "", ""⟩).trace = [.ExecuteRequest ⟨"GET", "/acct/packages",
          some Values.empty⟩] ∧
      err.Error = "unable to list packages: unable to decode list packages response" ∧
      Contains err.Error "unable to decode list packages response") ∧
    (∃ err, (PackagesClient.List 64
        ⟨"acct", fun _ => .ok ⟨"[", some (.New "unable to list packages")⟩⟩
        ⟨"", 0, 0, 0, 0, 0, "", ""⟩).err = some err ∧
      decodePackages ⟨"[", some (.New "unable to list packages")⟩ =
        (none, some (.New "unable to list packages")) ∧
      err.Error = "unable to decode list packages response: unable to list packages" ∧
      Contains err.Error "unable to list packages") :=
  ⟨⟨_, rfl, rfl, by decide, by decide⟩, ⟨_, rfl, rfl, by decide, by decide⟩⟩

theorem Contains_wrap_iff (cause : GoError) (message sub : String)
    (h : ∀ m : List Char, sub.data <:+: (message ++ ": ").data ++ m ↔ sub.data <:+: m) :
    Contains (GoError.Wrap cause message).Error sub ↔ Contains cause.Error sub := by
  unfold Contains
  rw [Error_Wrap, String.data_append]
  exact h _

/-- C6 (amended): for every transport error `e`, a transport failure of `List`
returns the message `unable to list packages: ` + the message of `e`, and for
every decode error `d` a decode failure of `List` returns the message
`unable to decode list packages response: ` + the message of `d` (for `Get`:
`unable to get package` and `unable to decode get package response`). Each
message starts with and contains its own phrase and does not start with the
phrase of the other kind, so the two kinds are told apart by the start of the
message; a message contains the phrase of the other kind exactly when the
message of its cause does. The four parts are independent: each needs only the
failure it is about. -/
theorem C6_failure_kinds_distinguished (intSize : Nat) (c : Client)
    (input : ListPackagesInput) (gi : GetPackageInput) :
    (∀ e : GoError,
      (∀ r ∈ requests (PackagesClient.List intSize c input).trace,
        c.ExecuteRequest r = .error e) →
      ∃ terr, (PackagesClient.List intSize c input).err = some terr ∧
        terr.Error = "unable to list packages: " ++ e.Error ∧
        Contains terr.Error "unable to list packages" ∧
        HasPrefix terr.Error "unable to list packages" ∧
        ¬ HasPrefix terr.Error "unable to decode list packages response" ∧
        (Contains terr.Error "unable to decode list packages response" ↔
          Contains e.Error "unable to decode list packages response")) ∧
    (∀ (body : ReadCloser) (d : GoError),
      (∀ r ∈ requests (PackagesClient.List intSize c input).trace,
        c.ExecuteRequest r = .ok body) →
      (decodePackages body).2 = some d →
      ∃ derr, (PackagesClient.List intSize c input).err = some derr ∧
        derr.Error = "unable to decode list packages response: " ++ d.Error ∧
        Contains derr.Error "unable to decode list packages response" ∧
        HasPrefix derr.Error "unable to decode list packages response" ∧
        ¬ HasPrefix derr.Error "unable to list packages" ∧
        (Contains derr.Error "unable to list packages" ↔
          Contains d.Error "unable to list packages")) ∧
    (∀ e : GoError,
      (∀ r ∈ requests (PackagesClient.Get c gi).trace, c.ExecuteRequest r = .error e) →
      ∃ terr, (PackagesClient.Get c gi).err = some terr ∧
        terr.Error = "unable to get package: " ++ e.Error ∧
        Contains terr.Error "unable to get package" ∧
        HasPrefix terr.Error "unable to get package" ∧
        ¬ HasPrefix terr.Error "unable to decode get package response" ∧
        (Contains terr.Error "unable to decode get package response" ↔
          Contains e.Error "unable to decode get package response")) ∧
    (∀ (body : ReadCloser) (d : GoError),
      (∀ r ∈ requests (PackagesClient.Get c gi).trace, c.ExecuteRequest r = .ok body) →
      (decodePackage body).2 = some d →
      ∃ derr, (PackagesClient.Get c gi).err = some derr ∧
        derr.Error = "unable to decode get package response: " ++ d.Error ∧
        Contains derr.Error "unable to decode get package response" ∧
        HasPrefix derr.Error "unable to decode get package response" ∧
        ¬ HasPrefix derr.Error "unable to get package" ∧
        (Contains derr.Error "unable to get package" ↔
          Contains d.Error "unable to get package")) := by
  have np : ∀ (cause : GoError) (message other : String),
      ¬ other.data <+: (message ++ ": ").data ++ cause.Error.data →
      ¬ HasPrefix (GoError.Wrap cause message).Error other := by
    intro cause message other h
    unfold HasPrefix
    rw [Error_Wrap, String.data_append]
    exact h
  refine ⟨?_, ?_, ?_, ?_⟩
  · intro e hT
    have h1 : c.ExecuteRequest (listRequest intSize c input) = .error e :=
      hT _ (by rw [List_requests]; exact List.mem_singleton.2 rfl)
    refine ⟨.Wrap e "unable to list packages", ?_, ?_, Contains_wrap _ _, HasPrefix_wrap _ _,
      ?_, ?_⟩
    · rw [List_eq, h1]; rfl
    · rw [Error_Wrap, String.append_assoc]; rfl
    · apply np
      show ¬ ['u', 'n', 'a', 'b', 'l', 'e', ' ', 't', 'o', ' ', 'd', 'e', 'c', 'o', 'd', 'e', ' ', 'l', 'i', 's', 't', ' ', 'p', 'a', 'c', 'k', 'a', 'g', 'e', 's', ' ', 'r', 'e', 's', 'p', 'o', 'n', 's', 'e'] <+: ['u', 'n', 'a', 'b', 'l', 'e', ' ', 't', 'o', ' ', 'l', 'i', 's', 't', ' ', 'p', 'a', 'c', 'k', 'a', 'g', 'e', 's', ':', ' '] ++ _
      simp [List.cons_prefix_cons]
    · exact Contains_wrap_iff _ _ _ decode_list_phrase_in_list_message
  · intro body d hD hd
    have h2 : c.ExecuteRequest (listRequest intSize c input) = .ok body :=
      hD _ (by rw [List_requests]; exact List.mem_singleton.2 rfl)
    refine ⟨.Wrap d "unable to decode list packages response", ?_, ?_, Contains_wrap _ _,
      HasPrefix_wrap _ _, ?_, ?_⟩
    · rw [List_eq, h2]; simp only [listAfter, hd]
    · rw [Error_Wrap, String.append_assoc]; rfl
    · apply np
      show ¬ ['u', 'n', 'a', 'b', 'l', 'e', ' ', 't', 'o', ' ', 'l', 'i', 's', 't', ' ', 'p', 'a', 'c', 'k', 'a', 'g', 'e', 's'] <+: ['u', 'n', 'a', 'b', 'l', 'e', ' ', 't', 'o', ' ', 'd', 'e', 'c', 'o', 'd', 'e', ' ', 'l', 'i', 's', 't', ' ', 'p', 'a', 'c', 'k', 'a', 'g', 'e', 's', ' ', 'r', 'e', 's', 'p', 'o', 'n', 's', 'e', ':', ' '] ++ _
      simp [List.cons_prefix_cons]
    · exact Contains_wrap_iff _ _ _ list_phrase_in_decode_list_message
  · intro e hT
    have h3 : c.ExecuteRequest (getRequest c gi) = .error e :=
      hT _ (by rw [Get_requests]; exact List.mem_singleton.2 rfl)
    refine ⟨.Wrap e "unable to get package", ?_, ?_, Contains_wrap _ _, HasPrefix_wrap _ _,
      ?_, ?_⟩
    · rw [Get_eq, h3]; rfl
    · rw [Error_Wrap, String.append_assoc]; rfl
    · apply np
      show ¬ ['u', 'n', 'a', 'b', 'l', 'e', ' ', 't', 'o', ' ', 'd', 'e', 'c', 'o', 'd', 'e', ' ', 'g', 'e', 't', ' ', 'p', 'a', 'c', 'k', 'a', 'g', 'e', ' ', 'r', 'e', 's', 'p', 'o', 'n', 's', 'e'] <+: ['u', 'n', 'a', 'b', 'l', 'e', ' ', 't', 'o', ' ', 'g', 'e', 't', ' ', 'p', 'a', 'c', 'k', 'a', 'g', 'e', ':', ' '] ++ _
      simp [List.cons_prefix_cons]
    · exact Contains_wrap_iff _ _ _ decode_get_phrase_in_get_message
  · intro body d hD hd
    have h4 : c.ExecuteRequest (getRequest c gi) = .ok body :=
      hD _ (by rw [Get_requests]; exact List.mem_singleton.2 rfl)
    refine ⟨.Wrap d "unable to decode get package response", ?_, ?_, Contains_wrap _ _,
      HasPrefix_wrap _ _, ?_, ?_⟩
    · rw [Get_eq, h4]; simp only [getAfter, hd]
    · rw [Error_Wrap, String.append_assoc]; rfl
    · apply np
      show ¬ ['u', 'n', 'a', 'b', 'l', 'e', ' ', 't', 'o', ' ', 'g', 'e', 't', ' ', 'p', 'a', 'c', 'k', 'a', 'g', 'e'] <+: ['u', 'n', 'a', 'b', 'l', 'e', ' ', 't', 'o', ' ', 'd', 'e', 'c', 'o', 'd', 'e', ' ', 'g', 'e', 't', ' ', 'p', 'a', 'c', 'k', 'a', 'g', 'e', ' ', 'r', 'e', 's', 'p', 'o', 'n', 's', 'e', ':', ' '] ++ _
      simp [List.cons_prefix_cons]
    · exact Contains_wrap_iff _ _ _ get_phrase_in_decode_get_message

/-- An instance: a transport that times out on the request of `List` and
answers the request of `Get` with `[1,]`, which the decoder rejects, and a
transport that does the reverse. -/
theorem C6_failure_kinds_distinguished_witness :
    (∀ r ∈ requests (PackagesClient.List 64
        (respondSplit "acct" (.error (.New "timeout")) (.ok ⟨"[1,]", none⟩))
        ⟨"", 0, 0, 0, 0, 0, "", ""⟩).trace,
      (respondSplit "acct" (.error (.New "timeout")) (.ok ⟨"[1,]", none⟩)).ExecuteRequest r =
        .error (.New "timeout")) ∧
    (∀ r ∈ requests (PackagesClient.Get
        (respondSplit "acct" (.error (.New "timeout")) (.ok ⟨"[1,]", none⟩)) ⟨"k4"⟩).trace,
      (respondSplit "acct" (.error (.New "timeout")) (.ok ⟨"[1,]", none⟩)).ExecuteRequest r =
        .ok ⟨"[1,]", none⟩) ∧
    (decodePackage ⟨"[1,]", none⟩).2 =
      some (.New "invalid character ']' looking for beginning of value") ∧
    (∀ r ∈ requests (PackagesClient.List 64
        (respondSplit "acct" (.ok ⟨"[1,]", none⟩) (.error (.New "timeout")))
        ⟨"", 0, 0, 0, 0, 0, "", ""⟩).trace,
      (respondSplit "acct" (.ok ⟨"[1,]", none⟩) (.error (.New "timeout"))).ExecuteRequest r =
        .ok ⟨"[1,]", none⟩) ∧
    (decodePackages ⟨"[1,]", none⟩).2 =
      some (.New "invalid character ']' looking for beginning of value") ∧
    (∀ r ∈ requests (PackagesClient.Get
        (respondSplit "acct" (.ok ⟨"[1,]", none⟩) (.error (.New "timeout"))) ⟨"k4"⟩).trace,
      (respondSplit "acct" (.ok ⟨"[1,]", none⟩) (.error (.New "timeout"))).ExecuteRequest r =
        .error (.New "timeout")) ∧
    (∃ terr, (PackagesClient.List 64
        (respondSplit "acct" (.error (.New "timeout")) (.ok ⟨"[1,]", none⟩))
        ⟨"", 0, 0, 0, 0, 0, "", ""⟩).err = some terr ∧
      terr.Error = "unable to list packages: " ++ (GoError.New "timeout").Error ∧
      Contains terr.Error "unable to list packages" ∧
      HasPrefix terr.Error "unable to list packages" ∧
      ¬ HasPrefix terr.Error "unable to decode list packages response" ∧
      (Contains terr.Error "unable to decode list packages response" ↔
        Contains (GoError.New "timeout").Error "unable to decode list packages response")) ∧
    (∃ derr, (PackagesClient.Get
        (respondSplit "acct" (.error (.New "timeout")) (.ok ⟨"[1,]", none⟩)) ⟨"k4"⟩).err =
        some derr ∧
      derr.Error = "unable to decode get package response: " ++
        (GoError.New "invalid character ']' looking for beginning of value").Error ∧
      Contains derr.Error "unable to decode get package response" ∧
      HasPrefix derr.Error "unable to decode get package response" ∧
      ¬ HasPrefix derr.Error "unable to get package" ∧
      (Contains derr.Error "unable to get package" ↔
        Contains (GoError.New "invalid character ']' looking for beginning of value").Error
          "unable to get package")) ∧
    (∃ derr, (PackagesClient.List 64
        (respondSplit "acct" (.ok ⟨"[1,]", none⟩) (.error (.New "timeout")))
        ⟨"", 0, 0, 0, 0, 0, "", ""⟩).err = some derr ∧
      derr.Error = "unable to decode list packages response: " ++
        (GoError.New "invalid character ']' looking for beginning of value").Error ∧
      Contains derr.Error "unable to decode list packages response" ∧
      HasPrefix derr.Error "unable to decode list packages response" ∧
      ¬ HasPrefix derr.Error "unable to list packages" ∧
      (Contains derr.Error "unable to list packages" ↔
        Contains (GoError.New "invalid character ']' looking for beginning of value").Error
          "unable to list packages")) ∧
    (∃ terr, (PackagesClient.Get
        (respondSplit "acct" (.ok ⟨"[1,]", none⟩) (.error (.New "timeout"))) ⟨"k4"⟩).err =
        some terr ∧
      terr.Error = "unable to get package: " ++ (GoError.New "timeout").Error ∧
      Contains terr.Error "unable to get package" ∧
      HasPrefix terr.Error "unable to get package" ∧
      ¬ HasPrefix terr.Error "unable to decode get package response" ∧
      (Contains terr.Error "unable to decode get package response" ↔
        Contains (GoError.New "timeout").Error "unable to decode get package response")) :=
  ⟨by intro r hr; rw [List_requests] at hr; rw [List.mem_singleton.1 hr]; rfl,
    by intro r hr; rw [Get_requests] at hr; rw [List.mem_singleton.1 hr]; rfl,
    by rfl,
    by intro r hr; rw [List_requests] at hr; rw [List.mem_singleton.1 hr]; rfl,
    by rfl,
    by intro r hr; rw [Get_requests] at hr; rw [List.mem_singleton.1 hr]; rfl,
    (C6_failure_kinds_distinguished 64
      (respondSplit "acct" (.error (.New "timeout")) (.ok ⟨"[1,]", none⟩))
      ⟨"", 0, 0, 0, 0, 0, "", ""⟩ ⟨"k4"⟩).1 (.New "timeout")
      (by intro r hr; rw [List_requests] at hr; rw [List.mem_singleton.1 hr]; rfl),
    (C6_failure_kinds_distinguished 64
      (respondSplit "acct" (.error (.New "timeout")) (.ok ⟨"[1,]", none⟩))
      ⟨"", 0, 0, 0, 0, 0, "", ""⟩ ⟨"k4"⟩).2.2.2 ⟨"[1,]", none⟩
      (.New "invalid character ']' looking for beginning of value")
      (by intro r hr; rw [Get_requests] at hr; rw [List.mem_singleton.1 hr]; rfl) (by rfl),
    (C6_failure_kinds_distinguished 64
      (respondSplit "acct" (.ok ⟨"[1,]", none⟩) (.error (.New "timeout")))
      ⟨"", 0, 0, 0, 0, 0, "", ""⟩ ⟨"k4"⟩).2.1 ⟨"[1,]", none⟩
      (.New "invalid character ']' looking for beginning of value")
      (by intro r hr; rw [List_requests] at hr; rw [List.mem_singleton.1 hr]; rfl) (by rfl),
    (C6_failure_kinds_distinguished 64
      (respondSplit "acct" (.ok ⟨"[1,]", none⟩) (.error (.New "timeout")))
      ⟨"", 0, 0, 0, 0, 0, "", ""⟩ ⟨"k4"⟩).2.2.1 (.New "timeout")
      (by intro r hr; rw [Get_requests] at hr; rw [List.mem_singleton.1 hr]; rfl)⟩

/-! ## No partial results; the response stream -/

theorem listAfter_err_or_nil (r : RequestInput) (resp : Except GoError ReadCloser) :
    (listAfter r resp).err = none ∨ (listAfter r resp).result = none := by
  unfold listAfter
  split <;> [skip; split] <;> simp

theorem getAfter_err_or_nil (r : RequestInput) (resp : Except GoError ReadCloser) :
    (getAfter r resp).err = none ∨ (getAfter r resp).result = none := by
  unfold getAfter
  split <;> [skip; split] <;> simp

/-- C8: `List` and `Get` never return a result together with an error: either
the error is nil or the result is nil. This includes a decode failure after the
decoder has filled in part of the result variable: for the body
`[{"id":"a"},{"memory":"x"}]` the decoder leaves two records in `result` and
returns an error, and `List` returns nil; for the body `{"id":"a","memory":"x"}`
the decoder leaves a record with `ID` set, and `Get` returns nil. -/
theorem C8_no_partial_result (intSize : Nat) (c : Client) (input : ListPackagesInput)
    (gi : GetPackageInput) :
    ((PackagesClient.List intSize c input).err = none ∨
      (PackagesClient.List intSize c input).result = none) ∧
    ((PackagesClient.Get c gi).err = none ∨ (PackagesClient.Get c gi).result = none) ∧
    (decodePackages ⟨"[\x7b\"id\":\"a\"\x7d,\x7b\"memory\":\"x\"\x7d]", none⟩ =
        (some [some { Package.zero with ID := "a" }, some Package.zero],
          some (.New ("json: cannot unmarshal string into Go struct field " ++
            "Package.memory of type int64"))) ∧
      (PackagesClient.List intSize
        (respondWith "acct" "[\x7b\"id\":\"a\"\x7d,\x7b\"memory\":\"x\"\x7d]") input).result = none ∧
      (PackagesClient.List intSize
        (respondWith "acct" "[\x7b\"id\":\"a\"\x7d,\x7b\"memory\":\"x\"\x7d]") input).err ≠ none) ∧
    (decodePackage ⟨"\x7b\"id\":\"a\",\"memory\":\"x\"\x7d", none⟩ =
        (some { Package.zero with ID := "a" },
          some (.New ("json: cannot unmarshal string into Go struct field " ++
            "Package.memory of type int64"))) ∧
      (PackagesClient.Get (respondWith "acct" "\x7b\"id\":\"a\",\"memory\":\"x\"\x7d") gi).result =
        none ∧
      (PackagesClient.Get (respondWith "acct" "\x7b\"id\":\"a\",\"memory\":\"x\"\x7d") gi).err ≠
        none) := by
  refine ⟨?_, ?_, ⟨by rfl, ?_, ?_⟩, ⟨by rfl, ?_, ?_⟩⟩
  · rw [List_eq]; exact listAfter_err_or_nil _ _
  · rw [Get_eq]; exact getAfter_err_or_nil _ _
  · rw [List_eq]; rfl
  · rw [List_eq]; exact fun h => nomatch h
  · rw [Get_eq]; rfl
  · rw [Get_eq]; exact fun h => nomatch h

/-- C9: after a successful `ExecuteRequest` the trace of `List` and of `Get` is
the request, the reading of the stream by the decoder, and one `Close` as the
last event, on the normal return and on a decode failure alike; after a failed
`ExecuteRequest` the trace is the request alone, with no read and no close. -/
theorem C9_stream_closed_once (intSize : Nat) (c : Client) (input : ListPackagesInput)
    (gi : GetPackageInput) :
    (∃ r, requests (PackagesClient.List intSize c input).trace = [r] ∧
      (PackagesClient.List intSize c input).trace =
        (if (c.ExecuteRequest r).isOk then [.ExecuteRequest r, .Read, .Close]
          else [.ExecuteRequest r]) ∧
      (PackagesClient.List intSize c input).trace.count .Close =
        (if (c.ExecuteRequest r).isOk then 1 else 0) ∧
      (PackagesClient.List intSize c input).trace.count .Read =
        (if (c.ExecuteRequest r).isOk then 1 else 0)) ∧
    (∃ r, requests (PackagesClient.Get c gi).trace = [r] ∧
      (PackagesClient.Get c gi).trace =
        (if (c.ExecuteRequest r).isOk then [.ExecuteRequest r, .Read, .Close]
          else [.ExecuteRequest r]) ∧
      (PackagesClient.Get c gi).trace.count .Close =
        (if (c.ExecuteRequest r).isOk then 1 else 0) ∧
      (PackagesClient.Get c gi).trace.count .Read =
        (if (c.ExecuteRequest r).isOk then 1 else 0)) := by
  constructor
  · refine ⟨listRequest intSize c input, List_requests intSize c input, ?_⟩
    rw [List_eq]
    unfold listAfter
    split
    · next h => rw [h]; simp [Except.isOk, Except.toBool]
    · next h => rw [h]; split <;> simp [Except.isOk, Except.toBool]
  · refine ⟨getRequest c gi, Get_requests c gi, ?_⟩
    rw [Get_eq]
    unfold getAfter
    split
    · next h => rw [h]; simp [Except.isOk, Except.toBool]
    · next h => rw [h]; split <;> simp [Except.isOk, Except.toBool]

/-! ## The path of the request -/

theorem cleanLoop_nil (rooted : Bool) (fuel : Nat) (out : List Char) (dd : Nat) :
    cleanLoop rooted fuel [] out dd = out := by
  cases fuel <;> rfl

theorem cleanLoop_slash (rooted : Bool) (fuel : Nat) (rest out : List Char) (dd : Nat) :
    cleanLoop rooted (fuel + 1) ('/' :: rest) out dd = cleanLoop rooted fuel rest out dd := by
  simp [cleanLoop]

/-- One iteration of the loop of `Clean` on an element that is kept: the
element is copied to the output, after a `/` unless the output is the root. -/
theorem cleanLoop_element (fuel : Nat) (seg rest out : List Char) (dd : Nat)
    (hseg : isElement seg = true) (hrest : rest = [] ∨ rest.head? = some '/') :
    cleanLoop true (fuel + 1) (seg ++ rest) out dd =
      cleanLoop true fuel rest ((if out.length ≠ 1 then out ++ ['/'] else out) ++ seg) dd := by
  simp only [isElement, Bool.and_eq_true, decide_eq_true_eq] at hseg
  obtain ⟨⟨⟨hne, hslash⟩, hdot⟩, hdotdot⟩ := hseg
  have hp : ∀ a ∈ seg, (decide (a ≠ '/')) = true := by
    intro a ha
    simp only [decide_eq_true_eq]
    intro h; exact hslash (h ▸ ha)
  have hrest_take : rest.takeWhile (fun x => decide (x ≠ '/')) = [] := by
    rcases hrest with h | h
    · rw [h]; rfl
    · cases rest with
      | nil => rfl
      | cons r rs =>
        simp only [List.head?_cons, Option.some.injEq] at h
        simp [h]
  have hrest_drop : rest.dropWhile (fun x => decide (x ≠ '/')) = rest := by
    rcases hrest with h | h
    · rw [h]; rfl
    · cases rest with
      | nil => rfl
      | cons r rs =>
        simp only [List.head?_cons, Option.some.injEq] at h
        simp [h]
  have htake : (seg ++ rest).takeWhile (fun x => decide (x ≠ '/')) = seg := by
    rw [List.takeWhile_append_of_pos hp, hrest_take, List.append_nil]
  have hdrop : (seg ++ rest).dropWhile (fun x => decide (x ≠ '/')) = rest := by
    rw [List.dropWhile_append_of_pos hp, hrest_drop]
  cases seg with
  | nil => exact absurd rfl hne
  | cons c t =>
    have hc : c ≠ '/' := fun h => hslash (h ▸ List.mem_cons_self _ _)
    have h2 : ¬ (c = '.' ∧ (t ++ rest = [] ∨ (t ++ rest).head? = some '/')) := by
      rintro ⟨hc2, h⟩
      subst hc2
      cases t with
      | nil => exact hdot rfl
      | cons d t2 =>
        rcases h with h | h
        · simp at h
        · simp only [List.cons_append, List.head?_cons, Option.some.injEq] at h
          exact hslash (h ▸ List.mem_cons_of_mem _ (List.mem_cons_self _ _))
    have h3 : ¬ (c = '.' ∧ (t ++ rest).head? = some '.' ∧
        ((t ++ rest).tail = [] ∨ (t ++ rest).tail.head? = some '/')) := by
      rintro ⟨hc2, hd, h⟩
      subst hc2
      cases t with
      | nil => exact hdot rfl
      | cons d t2 =>
        simp only [List.cons_append, List.head?_cons, Option.some.injEq] at hd
        subst hd
        cases t2 with
        | nil => exact hdotdot rfl
        | cons e t3 =>
          rcases h with h | h
          · simp at h
          · simp only [List.cons_append, List.tail_cons, List.head?_cons,
              Option.some.injEq] at h
            exact hslash (h ▸ List.mem_cons_of_mem _ (List.mem_cons_of_mem _
              (List.mem_cons_self _ _)))
    rw [List.cons_append] at htake hdrop ⊢
    rw [cleanLoop]
    rw [if_neg hc, if_neg h2, if_neg h3]
    simp only [htake, hdrop]
    congr 1
    by_cases hl : out.length = 1 <;> simp [hl]

theorem slashed_cons (s : List Char) (S : List (List Char)) :
    slashed (s :: S) = '/' :: s ++ slashed S := by
  simp [slashed]

theorem slashed_append (S T : List (List Char)) : slashed (S ++ T) = slashed S ++ slashed T := by
  simp [slashed]

theorem slashed_head (S : List (List Char)) : slashed S = [] ∨ (slashed S).head? = some '/' := by
  cases S with
  | nil => exact Or.inl rfl
  | cons s S => exact Or.inr (by rw [slashed_cons]; rfl)

/-- The loop of `Clean` copies a run of kept elements to a rooted output that
already holds an element. -/
theorem cleanLoop_elements (S : List (List Char)) (hS : ∀ s ∈ S, isElement s = true)
    (fuel : Nat) (out : List Char) (dd : Nat) (hout : 2 ≤ out.length)
    (hfuel : (slashed S).length ≤ fuel) :
    cleanLoop true fuel (slashed S) out dd = out ++ slashed S := by
  induction S generalizing fuel out with
  | nil => simp [slashed, cleanLoop_nil]
  | cons s S ih =>
    have hs : isElement s = true := hS s (List.mem_cons_self _ _)
    have hs1 : 1 ≤ s.length := by
      cases s with
      | nil => simp [isElement] at hs
      | cons a t => simp
    rw [slashed_cons] at hfuel ⊢
    simp only [List.length_cons, List.length_append] at hfuel
    obtain ⟨f, rfl⟩ : ∃ f, fuel = f + 2 := ⟨fuel - 2, by omega⟩
    rw [List.cons_append, cleanLoop_slash, cleanLoop_element f s (slashed S) out dd hs
      (slashed_head S)]
    have hl : out.length ≠ 1 := by omega
    rw [if_pos hl, ih (fun x hx => hS x (List.mem_cons_of_mem _ hx)) f _
      (by simp only [List.length_append]; omega) (by omega)]
    simp

/-- On a rooted path made of kept elements, each after one `/`, the loop of
`Clean` started at the root writes the path itself. -/
theorem cleanLoop_rooted (S : List (List Char)) (hS : ∀ s ∈ S, isElement s = true)
    (hne : S ≠ []) (fuel : Nat) (hfuel : (slashed S).length ≤ fuel) :
    cleanLoop true fuel (slashed S) ['/'] 1 = slashed S := by
  cases S with
  | nil => exact absurd rfl hne
  | cons s S =>
    have hs : isElement s = true := hS s (List.mem_cons_self _ _)
    have hs1 : 1 ≤ s.length := by
      cases s with
      | nil => simp [isElement] at hs
      | cons a t => simp
    rw [slashed_cons] at hfuel ⊢
    simp only [List.length_cons, List.length_append] at hfuel
    obtain ⟨f, rfl⟩ : ∃ f, fuel = f + 2 := ⟨fuel - 2, by omega⟩
    rw [List.cons_append, cleanLoop_slash, cleanLoop_element f s (slashed S) ['/'] 1 hs
      (slashed_head S)]
    simp only [List.length_singleton, ne_eq, not_true_eq_false, if_false]
    rw [cleanLoop_elements S (fun x hx => hS x (List.mem_cons_of_mem _ hx)) f _ 1
      (by simp only [List.length_append, List.length_singleton]; omega) (by omega)]
    simp

theorem slashed_eq_intercalate (S : List (List Char)) (hne : S ≠ []) :
    slashed S = '/' :: ['/'].intercalate S := by
  induction S with
  | nil => exact absurd rfl hne
  | cons s S ih =>
    cases S with
    | nil => simp [slashed, List.intercalate]
    | cons t S =>
      rw [slashed_cons, ih (by simp)]
      simp [List.intercalate, List.intersperse]

theorem slashed_splitOn (s : List Char) : slashed (s.splitOn '/') = '/' :: s := by
  have hne : s.splitOn '/' ≠ [] := List.splitOnP_ne_nil _ _
  rw [slashed_eq_intercalate _ hne, List.intercalate_splitOn]

/-- The function `Clean` removes the doubled leading `/` of a rooted path of
kept elements and changes nothing else. -/
theorem Clean_rooted (S : List (List Char)) (hS : ∀ s ∈ S, isElement s = true) (hne : S ≠ []) :
    Clean (String.mk ('/' :: slashed S)) = String.mk (slashed S) := by
  have hloop := cleanLoop_rooted S hS hne ('/' :: slashed S).length (by simp)
  have hlen : (slashed S).length ≠ 0 := by
    cases S with
    | nil => exact absurd rfl hne
    | cons s S => rw [slashed_cons]; simp
  unfold Clean
  simp only [List.head?_cons, List.tail_cons, decide_True, if_true, hloop, hlen, if_false,
    reduceCtorEq]


theorem Join_get_path (account id : String) (hA : IsCleanRel account) (hI : IsCleanRel id) :
    Join ["/", account, "packages", id] = "/" ++ account ++ "/packages/" ++ id := by
  have hsum : (["/", account, "packages", id].map fun e => e.data.length).sum ≠ 0 := by
    simp only [List.map_cons, List.sum_cons]
    have h1 : ("/" : String).data.length = 1 := rfl
    rw [h1]
    omega
  have hbuf : joinBuf [] ["/", account, "packages", id] =
      '/' :: slashed (account.data.splitOn '/' ++ ["packages".data] ++ id.data.splitOn '/') := by
    rw [slashed_append, slashed_append, slashed_splitOn, slashed_splitOn]
    simp [joinBuf, slashed]
  have hS : ∀ s ∈ account.data.splitOn '/' ++ ["packages".data] ++ id.data.splitOn '/',
      isElement s = true := by
    intro s hs
    rcases List.mem_append.1 hs with hs | hs
    · rcases List.mem_append.1 hs with hs | hs
      · exact hA s hs
      · rw [List.mem_singleton.1 hs]; decide
    · exact hI s hs
  unfold Join
  rw [if_neg hsum, hbuf, Clean_rooted _ hS (by simp)]
  apply String.ext
  rw [slashed_append, slashed_append, slashed_splitOn, slashed_splitOn]
  simp [slashed, String.data_append]

theorem Join_list_path (account : String) (hA : IsCleanRel account) :
    Join ["/", account, "packages"] = "/" ++ account ++ "/packages" := by
  have hsum : (["/", account, "packages"].map fun e => e.data.length).sum ≠ 0 := by
    simp only [List.map_cons, List.sum_cons]
    have h1 : ("/" : String).data.length = 1 := rfl
    rw [h1]
    omega
  have hbuf : joinBuf [] ["/", account, "packages"] =
      '/' :: slashed (account.data.splitOn '/' ++ ["packages".data]) := by
    rw [slashed_append, slashed_splitOn]
    simp [joinBuf, slashed]
  have hS : ∀ s ∈ account.data.splitOn '/' ++ ["packages".data], isElement s = true := by
    intro s hs
    rcases List.mem_append.1 hs with hs | hs
    · exact hA s hs
    · rw [List.mem_singleton.1 hs]; decide
  unfold Join
  rw [if_neg hsum, hbuf, Clean_rooted _ hS (by simp)]
  apply String.ext
  rw [slashed_append, slashed_splitOn]
  simp [slashed, String.data_append]

/-- The loop of `Clean` gives the same output with any number of steps that is
at least the length of the unread input. -/
theorem cleanLoop_fuel (rooted : Bool) (fuel : Nat) (rest out : List Char) (dd : Nat)
    (h : rest.length ≤ fuel) :
    cleanLoop rooted (fuel + 1) rest out dd = cleanLoop rooted fuel rest out dd := by
  induction fuel generalizing rest out dd with
  | zero =>
    cases rest with
    | nil => rfl
    | cons c t => simp at h
  | succ n ih =>
    cases rest with
    | nil => rfl
    | cons c t =>
      simp only [List.length_cons, Nat.add_le_add_iff_right] at h
      have ht : t.tail.length ≤ n := by rw [List.length_tail]; omega
      rw [cleanLoop]
      conv_rhs => rw [cleanLoop]
      by_cases h1 : c = '/'
      · simp only [h1, if_true]
        exact ih _ _ _ h
      · simp only [h1, if_false]
        have hd : ((c :: t).dropWhile fun x => decide (x ≠ '/')).length ≤ n := by
          rw [List.dropWhile_cons_of_pos (by simpa using h1)]
          exact (List.dropWhile_sublist _).length_le.trans h
        split_ifs <;> first | exact ih _ _ _ h | exact ih _ _ _ ht | exact ih _ _ _ hd

theorem takeWhile_append_slash (l : List Char) :
    (l ++ ['/']).takeWhile (fun x => decide (x ≠ '/')) =
      l.takeWhile (fun x => decide (x ≠ '/')) := by
  induction l with
  | nil => simp
  | cons a l ih =>
    by_cases h : a = '/'
    · simp [h]
    · simp only [List.cons_append, List.takeWhile_cons, h, ne_eq, not_false_eq_true,
        decide_True, if_true, ih]

theorem dropWhile_append_slash (l : List Char) :
    (l ++ ['/']).dropWhile (fun x => decide (x ≠ '/')) =
      l.dropWhile (fun x => decide (x ≠ '/')) ++ ['/'] := by
  induction l with
  | nil => simp
  | cons a l ih =>
    by_cases h : a = '/'
    · simp [h]
    · simp only [List.cons_append, List.dropWhile_cons, h, ne_eq, not_false_eq_true,
        decide_True, if_true, ih]

/-- A `/` at the end of the path changes nothing in what the loop of `Clean`
writes. -/
theorem cleanLoop_trailing_slash (rooted : Bool) (fuel : Nat) (X out : List Char) (dd : Nat)
    (h : X.length + 1 ≤ fuel) :
    cleanLoop rooted fuel (X ++ ['/']) out dd = cleanLoop rooted fuel X out dd := by
  induction fuel generalizing X out dd with
  | zero => omega
  | succ f ih =>
    cases X with
    | nil => rw [List.nil_append, cleanLoop_slash, cleanLoop_nil, cleanLoop_nil]
    | cons c t =>
      simp only [List.length_cons] at h
      have ht : t.length + 1 ≤ f := by omega
      rw [List.cons_append, cleanLoop]
      conv_rhs => rw [cleanLoop]
      by_cases h1 : c = '/'
      · rw [if_pos h1, if_pos h1]
        exact ih t out dd ht
      · rw [if_neg h1, if_neg h1]
        have hc2 : (t ++ ['/'] = [] ∨ (t ++ ['/']).head? = some '/') ↔
            (t = [] ∨ t.head? = some '/') := by
          cases t <;> simp
        have hc3 : ((t ++ ['/']).head? = some '.' ∧
            ((t ++ ['/']).tail = [] ∨ (t ++ ['/']).tail.head? = some '/')) ↔
            (t.head? = some '.' ∧ (t.tail = [] ∨ t.tail.head? = some '/')) := by
          cases t with
          | nil => simp
          | cons d t2 => cases t2 <;> simp
        by_cases h2 : c = '.' ∧ (t = [] ∨ t.head? = some '/')
        · rw [if_pos ⟨h2.1, hc2.2 h2.2⟩, if_pos h2]
          exact ih t out dd ht
        · rw [if_neg (fun hh => h2 ⟨hh.1, hc2.1 hh.2⟩), if_neg h2]
          by_cases h3 : c = '.' ∧ t.head? = some '.' ∧ (t.tail = [] ∨ t.tail.head? = some '/')
          · rw [if_pos ⟨h3.1, hc3.2 h3.2⟩, if_pos h3]
            obtain ⟨d, t2, rfl⟩ : ∃ d t2, t = d :: t2 := by
              cases t with
              | nil => simp at h3
              | cons d t2 => exact ⟨d, t2, rfl⟩
            simp only [List.length_cons] at ht
            simp only [List.cons_append, List.tail_cons]
            split_ifs <;> exact ih t2 _ _ (by omega)
          · rw [if_neg (fun hh => h3 ⟨hh.1, hc3.1 hh.2⟩), if_neg h3]
            have hd := dropWhile_append_slash (c :: t)
            have htk := takeWhile_append_slash (c :: t)
            rw [List.cons_append] at hd htk
            simp only [hd, htk]
            apply ih
            have : ((c :: t).dropWhile fun x => decide (x ≠ '/')).length ≤ t.length := by
              rw [List.dropWhile_cons_of_pos (by simpa using h1)]
              exact (List.dropWhile_sublist _).length_le
            omega

/-- The function `Clean` gives the same path with and without a `/` at the end
of a rooted path. -/
theorem Clean_trailing_slash (X : List Char) :
    Clean (String.mk ('/' :: (X ++ ['/']))) = Clean (String.mk ('/' :: X)) := by
  unfold Clean
  have h1 : cleanLoop true ('/' :: (X ++ ['/'])).length (X ++ ['/']) ['/'] 1 =
      cleanLoop true ('/' :: X).length X ['/'] 1 := by
    rw [cleanLoop_trailing_slash true _ X _ _ (by simp)]
    simp only [List.length_cons, List.length_append, List.length_singleton, List.length_nil,
      Nat.zero_add]
    exact cleanLoop_fuel true (X.length + 1) X _ _ (by omega)
  simp only [List.head?_cons, List.tail_cons, decide_True, if_true, h1, reduceCtorEq,
    if_false]

/-- The function `Clean` drops a doubled `/` at the start of the path. -/
theorem Clean_double_slash (X : List Char) :
    Clean (String.mk ('/' :: '/' :: X)) = Clean (String.mk ('/' :: X)) := by
  unfold Clean
  have h1 : cleanLoop true ('/' :: '/' :: X).length ('/' :: X) ['/'] 1 =
      cleanLoop true ('/' :: X).length X ['/'] 1 := by
    simp only [List.length_cons]
    exact cleanLoop_slash true (X.length + 1) X _ _
  simp only [List.head?_cons, List.tail_cons, decide_True, if_true, h1, reduceCtorEq,
    if_false]

/-- For every account name and ID the path of `Get` is the `Clean` of
`/` + account + `/packages/` + ID. -/
theorem Join_get_eq_Clean (account id : String) :
    Join ["/", account, "packages", id] = Clean ("/" ++ account ++ "/packages/" ++ id) := by
  have hsum : (["/", account, "packages", id].map fun e => e.data.length).sum ≠ 0 := by
    simp only [List.map_cons, List.sum_cons]
    have h1 : ("/" : String).data.length = 1 := rfl
    rw [h1]
    omega
  have hbuf : joinBuf [] ["/", account, "packages", id] =
      '/' :: '/' :: (account.data ++ "/packages/".data ++ id.data) := by
    simp [joinBuf]
  have hlit : "/" ++ account ++ "/packages/" ++ id =
      String.mk ('/' :: (account.data ++ "/packages/".data ++ id.data)) := by
    apply String.ext
    simp [String.data_append]
  unfold Join
  rw [if_neg hsum, hbuf, Clean_double_slash, hlit]

/-- For every account name the path of `List` is the `Clean` of
`/` + account + `/packages`. -/
theorem Join_list_eq_Clean (account : String) :
    Join ["/", account, "packages"] = Clean ("/" ++ account ++ "/packages") := by
  have hsum : (["/", account, "packages"].map fun e => e.data.length).sum ≠ 0 := by
    simp only [List.map_cons, List.sum_cons]
    have h1 : ("/" : String).data.length = 1 := rfl
    rw [h1]
    omega
  have hbuf : joinBuf [] ["/", account, "packages"] =
      '/' :: '/' :: (account.data ++ "/packages".data) := by
    simp [joinBuf]
  have hlit : "/" ++ account ++ "/packages" =
      String.mk ('/' :: (account.data ++ "/packages".data)) := by
    apply String.ext
    simp [String.data_append]
  unfold Join
  rw [if_neg hsum, hbuf, Clean_double_slash, hlit]

/-- With an empty ID the path of `Get` is the path of `List`, whatever the
account name. -/
theorem Join_get_empty_id (account : String) :
    Join ["/", account, "packages", ""] = Join ["/", account, "packages"] := by
  rw [Join_get_eq_Clean, Join_list_eq_Clean]
  have h1 : "/" ++ account ++ "/packages/" ++ "" =
      String.mk ('/' :: ((account.data ++ "/packages".data) ++ ['/'])) := by
    apply String.ext
    simp [String.data_append]
  have h2 : "/" ++ account ++ "/packages" =
      String.mk ('/' :: (account.data ++ "/packages".data)) := by
    apply String.ext
    simp [String.data_append]
  rw [h1, h2, Clean_trailing_slash]

theorem IsCleanRel_of_element (s : String) (h : isElement s.data = true) : IsCleanRel s := by
  have hs : '/' ∉ s.data := by
    simp only [isElement, Bool.and_eq_true, decide_eq_true_eq] at h
    exact h.1.1.2
  intro seg hseg
  have hsplit : s.data.splitOn '/' = [s.data] := by
    apply List.splitOnP_eq_single
    intro x hx hx2
    have : x = '/' := by simpa using hx2
    exact hs (this ▸ hx)
  rw [hsplit, List.mem_singleton] at hseg
  rw [hseg]; exact h

/-- C3 (as stated, refuted): `path.Join` cleans the path. With an empty ID the
request of `Get` goes to the `List` path `/acct/packages`, not to
`/acct/packages/`; with the ID `..` it goes to `/acct`; with the ID `a/../b` to
`/acct/packages/b`; with the ID `./k4` to `/acct/packages/k4`; and with an
empty account name and the ID `k4` to `/packages/k4`, not to `//packages/k4`. -/
theorem C3_get_path_counterexample :
    (requests (PackagesClient.Get (respondWith "acct" "") ⟨""⟩).trace =
        [⟨"GET", "/acct/packages", none⟩] ∧
      "/acct/packages" ≠ "/" ++ "acct" ++ "/packages/" ++ "") ∧
    (requests (PackagesClient.Get (respondWith "acct" "") ⟨".."⟩).trace =
        [⟨"GET", "/acct", none⟩] ∧
      "/acct" ≠ "/" ++ "acct" ++ "/packages/" ++ "..") ∧
    (requests (PackagesClient.Get (respondWith "acct" "") ⟨"a/../b"⟩).trace =
        [⟨"GET", "/acct/packages/b", none⟩] ∧
      "/acct/packages/b" ≠ "/" ++ "acct" ++ "/packages/" ++ "a/../b") ∧
    (requests (PackagesClient.Get (respondWith "acct" "") ⟨"./k4"⟩).trace =
        [⟨"GET", "/acct/packages/k4", none⟩] ∧
      "/acct/packages/k4" ≠ "/" ++ "acct" ++ "/packages/" ++ "./k4") ∧
    (requests (PackagesClient.Get (respondWith "" "") ⟨"k4"⟩).trace =
        [⟨"GET", "/packages/k4", none⟩] ∧
      "/packages/k4" ≠ "/" ++ "" ++ "/packages/" ++ "k4") :=
  ⟨⟨by rfl, by decide⟩, ⟨by rfl, by decide⟩, ⟨by rfl, by decide⟩, ⟨by rfl, by decide⟩,
    ⟨by rfl, by decide⟩⟩

/-- C3 (amended): for every account name and every package ID, `Get` issues
exactly one request, a GET without query, whose path is the `path.Clean` of
`/` + account + `/packages/` + ID; the path of `List` is the `path.Clean` of
`/` + account + `/packages`, and with an empty ID the path of `Get` is the path
of `List`. When the account name and the ID are made of path elements separated
by single `/`, each element non-empty and neither `.` nor `..` (in particular
every non-empty ID without `/` other than `.` and `..`), the path of `Get` is
`/` + account + `/packages/` + ID itself, which is the path of `List`,
`/` + account + `/packages`, followed by `/` and the ID. -/
theorem C3_get_path (intSize : Nat) (c : Client) (input : ListPackagesInput)
    (gi : GetPackageInput) :
    requests (PackagesClient.Get c gi).trace =
      [⟨"GET", Clean ("/" ++ c.AccountName ++ "/packages/" ++ gi.ID), none⟩] ∧
    (∃ q, requests (PackagesClient.List intSize c input).trace =
      [⟨"GET", Clean ("/" ++ c.AccountName ++ "/packages"), some q⟩]) ∧
    requests (PackagesClient.Get c ⟨""⟩).trace =
      [⟨"GET", Clean ("/" ++ c.AccountName ++ "/packages"), none⟩] ∧
    (IsCleanRel c.AccountName →
      Clean ("/" ++ c.AccountName ++ "/packages") = "/" ++ c.AccountName ++ "/packages") ∧
    (IsCleanRel c.AccountName → IsCleanRel gi.ID →
      requests (PackagesClient.Get c gi).trace =
        [⟨"GET", "/" ++ c.AccountName ++ "/packages/" ++ gi.ID, none⟩] ∧
      (∃ q, requests (PackagesClient.List intSize c input).trace =
        [⟨"GET", "/" ++ c.AccountName ++ "/packages", some q⟩]) ∧
      "/" ++ c.AccountName ++ "/packages/" ++ gi.ID =
        ("/" ++ c.AccountName ++ "/packages") ++ "/" ++ gi.ID) ∧
    (gi.ID.data ≠ [] ∧ '/' ∉ gi.ID.data ∧ gi.ID.data ≠ ['.'] ∧ gi.ID.data ≠ ['.', '.'] →
      IsCleanRel gi.ID) := by
  refine ⟨?_, ?_, ?_, ?_, ?_, ?_⟩
  rotate_left 5
  · intro h
    apply IsCleanRel_of_element
    simp only [isElement, Bool.and_eq_true, decide_eq_true_eq]
    exact ⟨⟨⟨h.1, h.2.1⟩, h.2.2.1⟩, h.2.2.2⟩
  · rw [Get_requests, Join_get_eq_Clean]; rfl
  · exact ⟨⟨listEntries intSize input⟩, by rw [List_requests, Join_list_eq_Clean]; rfl⟩
  · rw [Get_requests, Join_get_empty_id, Join_list_eq_Clean]; rfl
  · intro hA
    rw [← Join_list_eq_Clean, Join_list_path _ hA]
  · intro hA hI
    refine ⟨?_, ⟨⟨listEntries intSize input⟩, ?_⟩, ?_⟩
    · rw [Get_requests, Join_get_path _ _ hA hI]; rfl
    · rw [List_requests, Join_list_path _ hA]; rfl
    · apply String.ext
      simp [String.data_append]

/-- An instance: the account `acct` and a package UUID. -/
theorem C3_get_path_witness :
    IsCleanRel (respondWith "acct" "").AccountName ∧
    IsCleanRel (GetPackageInput.mk "7b17343c-94af-6266-e0e8-893a3b9993d0").ID ∧
    requests (PackagesClient.Get (respondWith "acct" "")
        ⟨"7b17343c-94af-6266-e0e8-893a3b9993d0"⟩).trace =
      [⟨"GET", "/" ++ (respondWith "acct" "").AccountName ++ "/packages/" ++
        (GetPackageInput.mk "7b17343c-94af-6266-e0e8-893a3b9993d0").ID, none⟩] ∧
    (∃ q, requests (PackagesClient.List 64 (respondWith "acct" "")
          ⟨"", 0, 0, 0, 0, 0, "", ""⟩).trace =
        [⟨"GET", "/" ++ (respondWith "acct" "").AccountName ++ "/packages", some q⟩]) ∧
    "/" ++ (respondWith "acct" "").AccountName ++ "/packages/" ++
        (GetPackageInput.mk "7b17343c-94af-6266-e0e8-893a3b9993d0").ID =
      ("/" ++ (respondWith "acct" "").AccountName ++ "/packages") ++ "/" ++
        (GetPackageInput.mk "7b17343c-94af-6266-e0e8-893a3b9993d0").ID :=
  ⟨by decide, by decide,
    (C3_get_path 64 (respondWith "acct" "") ⟨"", 0, 0, 0, 0, 0, "", ""⟩
      ⟨"7b17343c-94af-6266-e0e8-893a3b9993d0"⟩).2.2.2.2.1 (by decide) (by decide)⟩

/-! ## Decoding a JSON array of package objects -/

theorem get_setString (p : Package) (f g : Field) (s : String) (hf : f.type = "string") :
    (p.setString f s).get g = if g = f then .str s else p.get g := by
  cases f <;> first | (exact absurd hf (by decide)) | (cases g <;> rfl)

theorem get_setInt (p : Package) (f g : Field) (n : Int) (hf : f.type = "int64") :
    (p.setInt f n).get g = if g = f then .int n else p.get g := by
  cases f <;> first | (exact absurd hf (by decide)) | (cases g <;> rfl)

theorem get_setBool (p : Package) (f g : Field) (b : Bool) (hf : f.type = "bool") :
    (p.setBool f b).get g = if g = f then .bool b else p.get g := by
  cases f <;> first | (exact absurd hf (by decide)) | (cases g <;> rfl)

/-- Storing `null` or a value of the type of the field raises no error; a
non-null value is assigned to the field and the other fields are kept. -/
theorem storeField_typed (p : Package) (f : Field) (v : JSON)
    (h : (v.isNull || (fieldValueOf f.type v).isSome) = true) :
    (storeField p f v).2 = none ∧
      ∀ g, (storeField p f v).1.get g =
        if g = f ∧ v.isNull = false then (fieldValueOf f.type v).getD (Package.zero.get f)
        else p.get g := by
  cases v with
  | null => simp [storeField, JSON.isNull]
  | bool b =>
    have hf : f.type = "bool" := by
      by_contra hc
      simp [JSON.isNull, fieldValueOf, hc] at h
    simp only [storeField, hf, if_true, JSON.isNull, fieldValueOf, Option.getD_some, and_true,
      true_and]
    intro g
    exact get_setBool p f g b hf
  | number literal =>
    have hf : f.type = "int64" := by
      by_contra hc
      simp [JSON.isNull, fieldValueOf, hc] at h
    obtain ⟨n, hn⟩ : ∃ n, ParseInt literal 64 = some n := by
      cases hp : ParseInt literal 64 with
      | none => simp [JSON.isNull, fieldValueOf, hf, hp] at h
      | some n => exact ⟨n, rfl⟩
    simp only [storeField, hf, if_true, hn, JSON.isNull, fieldValueOf, Option.map_some',
      Option.getD_some, and_true, true_and]
    intro g
    exact get_setInt p f g n hf
  | string s =>
    have hf : f.type = "string" := by
      by_contra hc
      simp [JSON.isNull, fieldValueOf, hc] at h
    simp only [storeField, hf, if_true, JSON.isNull, fieldValueOf, Option.getD_some, and_true,
      true_and]
    intro g
    exact get_setString p f g (String.mk s) hf
  | array elems => simp [JSON.isNull, fieldValueOf] at h
  | object members => simp [JSON.isNull, fieldValueOf] at h

/-- Decoding the members of a package object raises no error and leaves in
each field the value of the last non-null member that names it. -/
theorem decodeMembers_typed (members : List (List Char × JSON)) (p : Package)
    (h : isPackageObject (.object members) = true) :
    (decodeMembers members p none).2 = none ∧
      ∀ g, (decodeMembers members p none).1.get g =
        match lastNonNull members g with
        | some v => (fieldValueOf g.type v).getD (Package.zero.get g)
        | none => p.get g := by
  induction members generalizing p with
  | nil => exact ⟨rfl, fun g => rfl⟩
  | cons kv rest ih =>
    obtain ⟨key, v⟩ := kv
    simp only [isPackageObject, List.all_cons, Bool.and_eq_true] at h
    obtain ⟨hkv, hrest⟩ := h
    have hrest2 : isPackageObject (.object rest) = true := hrest
    cases hf : findField key with
    | none =>
      obtain ⟨e1, e2⟩ := ih p hrest2
      simp only [decodeMembers, hf, lastNonNull]
      refine ⟨e1, fun g => ?_⟩
      rw [e2 g]
      cases lastNonNull rest g <;> simp
    | some f =>
      simp only [hf] at hkv
      obtain ⟨s1, s2⟩ := storeField_typed p f v hkv
      obtain ⟨e1, e2⟩ := ih (storeField p f v).1 hrest2
      simp only [decodeMembers, hf, lastNonNull, s1, saveError]
      refine ⟨e1, fun g => ?_⟩
      rw [e2 g]
      cases lastNonNull rest g with
      | some w => rfl
      | none =>
        simp only [s2 g, Option.some.injEq]
        by_cases hg : g = f
        · subst hg
          by_cases hn : v.isNull = false <;> simp [hn]
        · have hg2 : ¬ f = g := fun h => hg h.symm
          simp [hg, hg2]

/-- Decoding an array of package objects raises no error and gives one record
per element, in the order of the array, with the fields the element gives. -/
theorem decodeElems_typed (elems : List JSON) (h : ∀ e ∈ elems, isPackageObject e = true) :
    (decodeElems elems none).2 = none ∧
      List.Forall₂ (fun e r => ∃ p : Package, r = some p ∧
        ∀ f, p.get f = expectedField e.members f) elems (decodeElems elems none).1 := by
  induction elems with
  | nil => exact ⟨rfl, List.Forall₂.nil⟩
  | cons e rest ih =>
    have he : isPackageObject e = true := h e (List.mem_cons_self _ _)
    obtain ⟨i1, i2⟩ := ih fun x hx => h x (List.mem_cons_of_mem _ hx)
    cases e with
    | object members =>
      obtain ⟨d1, d2⟩ := decodeMembers_typed members Package.zero he
      simp only [decodeElems, decodePackagePtr, d1]
      exact ⟨i1, List.Forall₂.cons ⟨_, rfl, fun f => by
        rw [d2 f, expectedField, JSON.members]⟩ i2⟩
    | null => simp [isPackageObject] at he
    | bool b => simp [isPackageObject] at he
    | number l => simp [isPackageObject] at he
    | string s => simp [isPackageObject] at he
    | array a => simp [isPackageObject] at he

theorem foldedName_injective (f g : Field)
    (h : f.name.data.map foldChar = g.name.data.map foldChar) : f = g := by
  cases f <;> cases g <;> first | rfl | (exact absurd h (by decide))

/-- An object key selects the field `f` exactly when it equals the name of `f`
under the case folding of the decoder. -/
theorem findField_iff (key : List Char) (f : Field) :
    findField key = some f ↔ key.map foldChar = f.name.data.map foldChar := by
  unfold findField
  constructor
  · intro h
    split at h
    · next f2 hf2 =>
      have := List.find?_some hf2
      simp only [decide_eq_true_eq] at this
      cases h
      rw [this]
    · have := List.find?_some h
      simp only [decide_eq_true_eq] at this
      exact this.symm
  · intro h
    split
    · next f2 hf2 =>
      have := List.find?_some hf2
      simp only [decide_eq_true_eq] at this
      rw [foldedName_injective f2 f (by rw [this, h])]
    · have hmem : f ∈ packageFields := by cases f <;> decide
      cases hfind : packageFields.find? (fun f => f.name.data.map foldChar = key.map foldChar)
        with
      | none =>
        have := List.find?_eq_none.1 hfind f hmem
        simp only [decide_eq_true_eq] at this
        exact absurd h.symm this
      | some g =>
        have := List.find?_some hfind
        simp only [decide_eq_true_eq] at this
        rw [foldedName_injective g f (by rw [this, h])]

/-- The scanner refuses to open an array or an object inside
`maxNestingDepth` open ones, whatever follows. -/
theorem scanValue_max_depth (fuel : Nat) (c : Char) (cs : List Char)
    (hc : c = '[' ∨ c = '{') :
    scanValue (fuel + 1) maxNestingDepth (c :: cs) = syntaxError c "exceeded max depth" := by
  rcases hc with h | h <;> subst h <;> simp [scanValue, skipSpace, isSpace, maxNestingDepth]

/-- Arrays opened one inside the other past the nesting limit are a syntax
error, whatever follows: `n + 1` opening brackets inside `d` open arrays and
objects with `d + n = maxNestingDepth`. -/
theorem scanValue_deep (n : Nat) : ∀ (d fuel : Nat) (rest : List Char),
    d + n = maxNestingDepth → 2 * n + 1 ≤ fuel →
    scanValue fuel d (List.replicate (n + 1) '[' ++ rest) =
      syntaxError '[' "exceeded max depth" := by
  induction n with
  | zero =>
    intro d fuel rest hd hf
    obtain ⟨f, rfl⟩ : ∃ f, fuel = f + 1 := ⟨fuel - 1, by omega⟩
    have hd2 : d = maxNestingDepth := by omega
    rw [hd2]
    exact scanValue_max_depth f '[' rest (Or.inl rfl)
  | succ n ih =>
    intro d fuel rest hd hf
    obtain ⟨f, rfl⟩ : ∃ f, fuel = f + 2 := ⟨fuel - 2, by omega⟩
    have hdepth : d + 1 ≤ maxNestingDepth := by omega
    have hih := ih (d + 1) f rest (by omega) (by omega)
    rw [List.replicate_succ, List.cons_append, scanValue]
    rw [List.replicate_succ, List.cons_append] at hih ⊢
    simp only [skipSpace, isSpace, Char.reduceEq, decide_False, Bool.or_self, Bool.false_eq_true,
      if_false, if_true, hdepth, scanElems, hih, syntaxError]

/-- A body that starts with `[{"x":` followed by arrays opened one inside the
other up to the nesting limit is a syntax error for the decoder. -/
theorem readValue_deep (m : Nat) (rest : List Char) (hm : 2 + m = maxNestingDepth) :
    readValue ⟨String.mk ('[' :: '\x7b' :: '"' :: 'x' :: '"' :: ':' ::
        (List.replicate (m + 1) '[' ++ rest)), none⟩ =
      .error (.New "invalid character '[' exceeded max depth") := by
  have hdeep := scanValue_deep m 2
    (2 * (List.replicate (m + 1) '[' ++ rest).length + 10) rest hm
    (by simp only [List.length_append, List.length_replicate]; omega)
  have hlen : 2 * ('[' :: '\x7b' :: '"' :: 'x' :: '"' :: ':' ::
      (List.replicate (m + 1) '[' ++ rest)).length + 2 =
      (2 * (List.replicate (m + 1) '[' ++ rest).length + 10) + 4 := by
    simp only [List.length_cons]; omega
  unfold readValue
  simp only [hlen]
  generalize 2 * (List.replicate (m + 1) '[' ++ rest).length + 10 = f at hdeep
  generalize List.replicate (m + 1) '[' ++ rest = X at hdeep
  have hscan : scanValue (f + 4) 0 ('[' :: '\x7b' :: '"' :: 'x' :: '"' :: ':' :: X) =
      syntaxError '[' "exceeded max depth" := by
    have hd1 : (0 : Nat) + 1 ≤ maxNestingDepth := by decide
    have hd2 : (0 : Nat) + 1 + 1 ≤ maxNestingDepth := by decide
    simp only [scanValue, scanElems, scanMembers, scanString, skipSpace, isSpace, hd1, hd2,
      Char.reduceEq, decide_False, Bool.or_self, Bool.false_eq_true, if_false, if_true,
      List.nil_append, hdeep, syntaxError, Char.reduceToNat, Nat.reduceLT]
  rw [hscan]
  rfl

/-- On such a body `List` returns a nil result and the decode error. -/
theorem List_deep (intSize : Nat) (input : ListPackagesInput) (m : Nat) (rest : List Char)
    (hm : 2 + m = maxNestingDepth) :
    (PackagesClient.List intSize (respondWith "acct"
        (String.mk ('[' :: '\x7b' :: '"' :: 'x' :: '"' :: ':' ::
          (List.replicate (m + 1) '[' ++ rest)))) input).result = none ∧
    (PackagesClient.List intSize (respondWith "acct"
        (String.mk ('[' :: '\x7b' :: '"' :: 'x' :: '"' :: ':' ::
          (List.replicate (m + 1) '[' ++ rest)))) input).err =
      some (.Wrap (.New "invalid character '[' exceeded max depth")
        "unable to decode list packages response") := by
  have h : ∀ r, (respondWith "acct"
      (String.mk ('[' :: '\x7b' :: '"' :: 'x' :: '"' :: ':' ::
        (List.replicate (m + 1) '[' ++ rest)))).ExecuteRequest r =
      .ok ⟨String.mk ('[' :: '\x7b' :: '"' :: 'x' :: '"' :: ':' ::
        (List.replicate (m + 1) '[' ++ rest)), none⟩ := fun _ => rfl
  rw [List_eq, h]
  simp only [listAfter, decodePackages, readValue_deep m rest hm]
  exact ⟨trivial, trivial⟩

/-- C7 (as stated, refuted): well-formed JSON arrays for which `List` does not
return one record per element with the element's values. For `[1]` and for
`[{"memory":"512"}]`, `[{"memory":1.5}]`, `[{"memory":9223372036854775808}]`
the decoder reports a type error and `List` returns an error and a nil result;
for `[null]` `List` returns no error and a slice whose only entry is a nil
pointer; and for the array `[{"x":[[ ... ]]}]` whose only object has a member x
holding 9999 arrays one inside the other, the scanner's nesting limit makes
`List` return an error and a nil result. -/
theorem C7_wellformed_array_counterexample :
    (readValue ⟨"[1]", none⟩ = .ok (.array [.number ['1']]) ∧
      (PackagesClient.List 64 (respondWith "acct" "[1]") ⟨"", 0, 0, 0, 0, 0, "", ""⟩).result =
        none ∧
      (PackagesClient.List 64 (respondWith "acct" "[1]") ⟨"", 0, 0, 0, 0, 0, "", ""⟩).err =
        some (.Wrap (.New "json: cannot unmarshal number into Go value of type compute.Package")
          "unable to decode list packages response")) ∧
    (readValue ⟨"[\x7b\"memory\":\"512\"\x7d]", none⟩ =
        .ok (.array [.object [("memory".data, .string "512".data)]]) ∧
      (PackagesClient.List 64 (respondWith "acct" "[\x7b\"memory\":\"512\"\x7d]")
        ⟨"", 0, 0, 0, 0, 0, "", ""⟩).result = none ∧
      (PackagesClient.List 64 (respondWith "acct" "[\x7b\"memory\":\"512\"\x7d]")
        ⟨"", 0, 0, 0, 0, 0, "", ""⟩).err =
        some (.Wrap (.New ("json: cannot unmarshal string into Go struct field " ++
          "Package.memory of type int64")) "unable to decode list packages response")) ∧
    (readValue ⟨"[\x7b\"memory\":1.5\x7d]", none⟩ =
        .ok (.array [.object [("memory".data, .number "1.5".data)]]) ∧
      (PackagesClient.List 64 (respondWith "acct" "[\x7b\"memory\":1.5\x7d]")
        ⟨"", 0, 0, 0, 0, 0, "", ""⟩).err =
        some (.Wrap (.New ("json: cannot unmarshal number 1.5 into Go struct field " ++
          "Package.memory of type int64")) "unable to decode list packages response")) ∧
    (readValue ⟨"[\x7b\"memory\":9223372036854775808\x7d]", none⟩ =
        .ok (.array [.object [("memory".data, .number "9223372036854775808".data)]]) ∧
      (PackagesClient.List 64 (respondWith "acct" "[\x7b\"memory\":9223372036854775808\x7d]")
        ⟨"", 0, 0, 0, 0, 0, "", ""⟩).err =
        some (.Wrap (.New ("json: cannot unmarshal number 9223372036854775808 into Go " ++
          "struct field Package.memory of type int64"))
          "unable to decode list packages response")) ∧
    (readValue ⟨"[null]", none⟩ = .ok (.array [.null]) ∧
      (PackagesClient.List 64 (respondWith "acct" "[null]") ⟨"", 0, 0, 0, 0, 0, "", ""⟩).err =
        none ∧
      (PackagesClient.List 64 (respondWith "acct" "[null]") ⟨"", 0, 0, 0, 0, 0, "", ""⟩).result =
        some [none]) ∧
    ((PackagesClient.List 64 (respondWith "acct"
        (String.mk ('[' :: '\x7b' :: '"' :: 'x' :: '"' :: ':' ::
          (List.replicate 9999 '[' ++ (List.replicate 9999 ']' ++ ['\x7d', ']'])))))
        ⟨"", 0, 0, 0, 0, 0, "", ""⟩).result = none ∧
      (PackagesClient.List 64 (respondWith "acct"
        (String.mk ('[' :: '\x7b' :: '"' :: 'x' :: '"' :: ':' ::
          (List.replicate 9999 '[' ++ (List.replicate 9999 ']' ++ ['\x7d', ']'])))))
        ⟨"", 0, 0, 0, 0, 0, "", ""⟩).err =
        some (.Wrap (.New "invalid character '[' exceeded max depth")
          "unable to decode list packages response")) :=
  ⟨⟨by rfl, by rfl, by rfl⟩, ⟨by rfl, by rfl, by rfl⟩, ⟨by rfl, by rfl⟩, ⟨by rfl, by rfl⟩,
    ⟨by rfl, by rfl, by rfl⟩, List_deep 64 _ 9998 _ (by decide)⟩

/-- C7 (amended): given a response body from which the decoder reads a JSON
array (`readValue` gives an array: after white space the body starts with a
syntactically valid JSON array that stays within the scanner's nesting limit
`maxNestingDepth`) and whose elements are JSON objects in which every member
whose key names a `Package` field (exactly, or under the decoder's case
folding) holds `null` or a value of the field's type (a string for id, name,
version, group, description; an integer literal within `int64` for memory,
disk, swap, lwps, vcpus; `true` or `false` for default), `List` returns no
error and one record per array element, in the same order, each field carrying
the value of the last non-null member of the element that names it, and its
zero value when there is none; members whose key names no field are ignored. -/
theorem C7_list_decodes_package_objects (intSize : Nat) (c : Client)
    (input : ListPackagesInput) (body : ReadCloser) (elems : List JSON)
    (hresp : ∀ r ∈ requests (PackagesClient.List intSize c input).trace,
      c.ExecuteRequest r = .ok body)
    (hbody : readValue body = .ok (.array elems))
    (helems : ∀ e ∈ elems, isPackageObject e = true) :
    (PackagesClient.List intSize c input).err = none ∧
    ∃ recs, (PackagesClient.List intSize c input).result = some recs ∧
      recs.length = elems.length ∧
      List.Forall₂ (fun e r => ∃ p : Package, r = some p ∧
        ∀ f, p.get f = expectedField e.members f) elems recs := by
  have h1 : c.ExecuteRequest (listRequest intSize c input) = .ok body :=
    hresp _ (by rw [List_requests]; exact List.mem_singleton.2 rfl)
  obtain ⟨d1, d2⟩ := decodeElems_typed elems helems
  have hdec : decodePackages body = (some (decodeElems elems none).1, none) := by
    simp only [decodePackages, hbody, unmarshalPackages, d1]
  have hout : listAfter (listRequest intSize c input) (.ok body) =
      ⟨some (decodeElems elems none).1, none,
        [.ExecuteRequest (listRequest intSize c input), .Read, .Close]⟩ := by
    simp only [listAfter, hdec]
  rw [List_eq, h1, hout]
  exact ⟨rfl, _, rfl, d2.length_eq.symm, d2⟩

/-- An instance: an array of two package objects, with a key in another case, a
`null` member, a member that names no field and a repeated key. -/
theorem C7_list_decodes_package_objects_witness :
    (∀ r ∈ requests (PackagesClient.List 64
        (respondWith "acct" ("[\x7b\"id\":\"k4\",\"Name\":\"g4\",\"memory\":4096," ++
          "\"disk\":null,\"default\":true,\"extra\":[1,2]\x7d,\x7b\"memory\":1,\"memory\":2\x7d]"))
        ⟨"", 0, 0, 0, 0, 0, "", ""⟩).trace,
      (respondWith "acct" ("[\x7b\"id\":\"k4\",\"Name\":\"g4\",\"memory\":4096," ++
          "\"disk\":null,\"default\":true,\"extra\":[1,2]\x7d,\x7b\"memory\":1,\"memory\":2\x7d]")
        ).ExecuteRequest r =
        .ok ⟨"[\x7b\"id\":\"k4\",\"Name\":\"g4\",\"memory\":4096," ++
          "\"disk\":null,\"default\":true,\"extra\":[1,2]\x7d,\x7b\"memory\":1,\"memory\":2\x7d]",
          none⟩) ∧
    readValue ⟨"[\x7b\"id\":\"k4\",\"Name\":\"g4\",\"memory\":4096," ++
        "\"disk\":null,\"default\":true,\"extra\":[1,2]\x7d,\x7b\"memory\":1,\"memory\":2\x7d]",
        none⟩ =
      .ok (.array [.object [("id".data, .string "k4".data), ("Name".data, .string "g4".data),
          ("memory".data, .number "4096".data), ("disk".data, .null),
          ("default".data, .bool true),
          ("extra".data, .array [.number "1".data, .number "2".data])],
        .object [("memory".data, .number "1".data), ("memory".data, .number "2".data)]]) ∧
    (PackagesClient.List 64
        (respondWith "acct" ("[\x7b\"id\":\"k4\",\"Name\":\"g4\",\"memory\":4096," ++
          "\"disk\":null,\"default\":true,\"extra\":[1,2]\x7d,\x7b\"memory\":1,\"memory\":2\x7d]"))
        ⟨"", 0, 0, 0, 0, 0, "", ""⟩).result =
      some [some ⟨"k4", "g4", 4096, 0, 0, 0, 0, "", "", "", true⟩,
        some ⟨"", "", 2, 0, 0, 0, 0, "", "", "", false⟩] ∧
    ((PackagesClient.List 64
        (respondWith "acct" ("[\x7b\"id\":\"k4\",\"Name\":\"g4\",\"memory\":4096," ++
          "\"disk\":null,\"default\":true,\"extra\":[1,2]\x7d,\x7b\"memory\":1,\"memory\":2\x7d]"))
        ⟨"", 0, 0, 0, 0, 0, "", ""⟩).err = none ∧
    ∃ recs, (PackagesClient.List 64
        (respondWith "acct" ("[\x7b\"id\":\"k4\",\"Name\":\"g4\",\"memory\":4096," ++
          "\"disk\":null,\"default\":true,\"extra\":[1,2]\x7d,\x7b\"memory\":1,\"memory\":2\x7d]"))
        ⟨"", 0, 0, 0, 0, 0, "", ""⟩).result = some recs ∧
      recs.length = [JSON.object [("id".data, .string "k4".data),
          ("Name".data, .string "g4".data),
          ("memory".data, .number "4096".data), ("disk".data, .null),
          ("default".data, .bool true),
          ("extra".data, .array [.number "1".data, .number "2".data])],
        .object [("memory".data, .number "1".data), ("memory".data, .number "2".data)]].length ∧
      List.Forall₂ (fun e r => ∃ p : Package, r = some p ∧
        ∀ f, p.get f = expectedField e.members f)
        [JSON.object [("id".data, .string "k4".data), ("Name".data, .string "g4".data),
          ("memory".data, .number "4096".data), ("disk".data, .null),
          ("default".data, .bool true),
          ("extra".data, .array [.number "1".data, .number "2".data])],
        .object [("memory".data, .number "1".data), ("memory".data, .number "2".data)]] recs) :=
  ⟨fun _ _ => rfl, by rfl, by rfl,
    C7_list_decodes_package_objects 64 _ ⟨"", 0, 0, 0, 0, 0, "", ""⟩ _ _ (fun _ _ => rfl)
      (by rfl) (by decide)⟩

/-! ## The loops of the embedding never run out of steps -/

theorem skipSpace_length (input : List Char) : (skipSpace input).length ≤ input.length := by
  induction input with
  | nil => simp [skipSpace]
  | cons c cs ih =>
    simp only [skipSpace]
    split_ifs
    · exact ih.trans (by simp)
    · exact le_refl _

theorem Scan.Within.mono {α : Type} {n m : Nat} {s : Scan α} (h : s.Within n) (hnm : n ≤ m) :
    s.Within m := by
  cases s with
  | ok v rest => exact Nat.le_trans h hnm
  | syntaxError msg => trivial
  | more => trivial
  | stuck => exact h


theorem scanDigits_length (input : List Char) : (scanDigits input).2.length ≤ input.length := by
  induction input with
  | nil => simp [scanDigits]
  | cons c cs ih =>
    simp only [scanDigits]
    split_ifs
    · exact ih.trans (by simp)
    · exact le_refl _

theorem scanLiteral_within (name : String) (v : JSON) (expect input : List Char) :
    (scanLiteral name v expect input).Within input.length := by
  induction expect generalizing input with
  | nil => simp [scanLiteral, Scan.Within]
  | cons e es ih =>
    cases input with
    | nil => trivial
    | cons c cs =>
      simp only [scanLiteral]
      split_ifs
      · exact (ih cs).mono (by simp)
      · trivial

theorem scanExponent_within (lit input : List Char) :
    (scanExponent lit input).Within input.length := by
  cases input with
  | nil => trivial
  | cons c cs =>
    simp only [scanExponent]
    split
    · trivial
    · next d ds hrest =>
      have hlen : (d :: ds).length ≤ (c :: cs).length := by
        rw [← hrest]; split_ifs <;> simp
      by_cases hd : isDigit d = true
      · rw [if_pos hd]
        exact Nat.le_trans ((scanDigits_length ds).trans (by simp)) hlen
      · rw [if_neg hd]; trivial

theorem scanFraction_within (lit input : List Char) :
    (scanFraction lit input).Within input.length := by
  cases input with
  | nil => simp [scanFraction, Scan.Within]
  | cons c cs =>
    simp only [scanFraction]
    split_ifs with h1 h2
    · cases cs with
      | nil => trivial
      | cons d ds =>
        simp only []
        split_ifs with h3
        · have hl := scanDigits_length ds
          split
          · simp [Scan.Within]
          · next e es he =>
            rw [he] at hl
            simp only [List.length_cons] at hl
            split_ifs
            · exact (scanExponent_within _ es).mono (by simp only [List.length_cons]; omega)
            · simp only [Scan.Within, List.length_cons]; omega
        · trivial
    · exact (scanExponent_within _ cs).mono (by simp)
    · simp [Scan.Within]

theorem scanNumber_cons_within (sign : List Char) (c : Char) (cs : List Char) :
    (scanNumber sign (c :: cs)).Within cs.length := by
  simp only [scanNumber]
  split_ifs
  · exact scanFraction_within _ cs
  · exact (scanFraction_within _ _).mono (scanDigits_length cs)
  · trivial

theorem scanNumber_within (sign input : List Char) :
    (scanNumber sign input).Within input.length := by
  cases input with
  | nil => trivial
  | cons c cs => exact (scanNumber_cons_within sign c cs).mono (by simp)

theorem scanHex4_within (n acc : Nat) (input : List Char) :
    (scanHex4 n acc input).Within input.length := by
  induction n generalizing acc input with
  | zero => simp [scanHex4, Scan.Within]
  | succ n ih =>
    cases input with
    | nil => trivial
    | cons c cs =>
      simp only [scanHex4]
      split
      · exact (ih _ cs).mono (by simp)
      · trivial

theorem scanString_skip (k : Nat) (acc : List Char) (c : Char) (cs : List Char) :
    scanString (k + 1) acc (c :: cs) = scanString k acc cs := by
  simp [scanString]

theorem scanString_within (skip : Nat) (acc input : List Char) :
    (scanString skip acc input).Within input.length := by
  induction input using List.rec generalizing skip acc with
  | nil => cases skip <;> trivial
  | cons c cs ih =>
    cases skip with
    | succ k => rw [scanString_skip]; exact (ih k acc).mono (by simp)
    | zero =>
      unfold scanString
      split_ifs with h1 h2 h3
      · simp [Scan.Within]
      · cases cs with
        | nil => trivial
        | cons e es =>
          simp only []
          have ih2 : ∀ k a, (scanString k a es).Within (c :: e :: es).length := by
            intro k a
            have := ih (k + 1) a
            rw [scanString_skip] at this
            exact this.mono (by simp)
          split_ifs
          · have hh := scanHex4_within 4 0 es
            split
            · exact ih2 _ _
            · trivial
            · trivial
            · next hst => rw [hst] at hh; exact absurd hh id
          all_goals first | exact ih2 _ _ | trivial
      · trivial
      · exact (ih 0 _).mono (by simp)

theorem Within_map {α β : Type} (f : α → β) (n : Nat) (s : Scan α) (h : s.Within n) :
    (s.map f).Within n := by
  cases s <;> exact h

/-- With `2 * len + 1` steps for a value and `2 * len + 2` for the rest of an
array or object, where `len` is the length of the input, the scanner is never
abandoned, and a value it gives is followed by less input than it was given. -/
theorem scan_within (fuel : Nat) :
    (∀ depth input, 2 * input.length + 1 ≤ fuel →
      (scanValue fuel depth input).Within (input.length - 1)) ∧
    (∀ depth input acc, 2 * input.length + 2 ≤ fuel →
      (scanElems fuel depth input acc).Within (input.length - 1)) ∧
    (∀ depth input acc, 2 * input.length + 2 ≤ fuel →
      (scanMembers fuel depth input acc).Within (input.length - 1)) := by
  induction fuel with
  | zero =>
    refine ⟨fun _ _ h => ?_, fun _ _ _ h => ?_, fun _ _ _ h => ?_⟩ <;> omega
  | succ fuel ih =>
    obtain ⟨ihV, ihE, ihM⟩ := ih
    refine ⟨?_, ?_, ?_⟩
    · intro depth input h
      unfold scanValue
      split
      · trivial
      · next c cs hsk =>
        have hcs : cs.length + 1 ≤ input.length := by
          have := skipSpace_length input
          rw [hsk] at this
          simpa using this
        have hcs1 : cs.length ≤ input.length - 1 := by omega
        by_cases h1 : c = '{'
        · rw [if_pos h1]
          by_cases hd : depth + 1 ≤ maxNestingDepth
          · rw [if_pos hd]
            split
            · trivial
            · next d ds hsk2 =>
              have hds : ds.length + 1 ≤ cs.length := by
                have := skipSpace_length cs
                rw [hsk2] at this
                simpa using this
              by_cases h2 : d = '}'
              · rw [if_pos h2]
                show ds.length ≤ input.length - 1
                omega
              · rw [if_neg h2]
                exact (ihM (depth + 1) (d :: ds) []
                  (by simp only [List.length_cons]; omega)).mono
                  (by simp only [List.length_cons]; omega)
          · rw [if_neg hd]; trivial
        · rw [if_neg h1]
          by_cases h3 : c = '['
          · rw [if_pos h3]
            by_cases hd : depth + 1 ≤ maxNestingDepth
            · rw [if_pos hd]
              split
              · trivial
              · next d ds hsk2 =>
                have hds : ds.length + 1 ≤ cs.length := by
                  have := skipSpace_length cs
                  rw [hsk2] at this
                  simpa using this
                by_cases h2 : d = ']'
                · rw [if_pos h2]
                  show ds.length ≤ input.length - 1
                  omega
                · rw [if_neg h2]
                  exact (ihE (depth + 1) (d :: ds) []
                    (by simp only [List.length_cons]; omega)).mono
                    (by simp only [List.length_cons]; omega)
            · rw [if_neg hd]; trivial
          · rw [if_neg h3]
            split_ifs
            · exact (Within_map _ _ _ (scanString_within 0 [] cs)).mono hcs1
            · exact (scanNumber_within _ cs).mono hcs1
            · exact (scanNumber_cons_within _ c cs).mono hcs1
            · exact (scanLiteral_within _ _ _ cs).mono hcs1
            · exact (scanLiteral_within _ _ _ cs).mono hcs1
            · exact (scanLiteral_within _ _ _ cs).mono hcs1
            · trivial
    · intro depth input acc h
      unfold scanElems
      have hv := ihV depth input (by omega)
      split
      · next v rest hres =>
        rw [hres] at hv
        have hrest : rest.length ≤ input.length - 1 := hv
        split
        · trivial
        · next c cs hsk =>
          have hcs : cs.length + 1 ≤ rest.length := by
            have := skipSpace_length rest
            rw [hsk] at this
            simpa using this
          split_ifs
          · exact (ihE depth cs _ (by omega)).mono (by omega)
          · show cs.length ≤ input.length - 1
            omega
          · trivial
      · trivial
      · trivial
      · next hres => rw [hres] at hv; exact hv
    · intro depth input acc h
      unfold scanMembers
      split
      · trivial
      · next c cs hsk =>
        have hcs : cs.length + 1 ≤ input.length := by
          have := skipSpace_length input
          rw [hsk] at this
          simpa using this
        by_cases h1 : c = '"'
        · rw [if_pos h1]
          have hs := scanString_within 0 [] cs
          split
          · next key rest hres =>
            rw [hres] at hs
            have hrest : rest.length ≤ cs.length := hs
            split
            · trivial
            · next d ds hsk2 =>
              have hds : ds.length + 1 ≤ rest.length := by
                have := skipSpace_length rest
                rw [hsk2] at this
                simpa using this
              by_cases h2 : d = ':'
              · rw [if_pos h2]
                have hv := ihV depth ds (by omega)
                split
                · next v rest2 hres2 =>
                  rw [hres2] at hv
                  have hrest2 : rest2.length ≤ ds.length - 1 := hv
                  split
                  · trivial
                  · next e es hsk3 =>
                    have hes : es.length + 1 ≤ rest2.length := by
                      have := skipSpace_length rest2
                      rw [hsk3] at this
                      simpa using this
                    split_ifs
                    · exact (ihM depth es _ (by omega)).mono (by omega)
                    · show es.length ≤ input.length - 1
                      omega
                    · trivial
                · trivial
                · trivial
                · next hres2 => rw [hres2] at hv; exact hv
              · rw [if_neg h2]; trivial
          · trivial
          · trivial
          · next hres => rw [hres] at hs; exact hs
        · rw [if_neg h1]; trivial

/-- The scanner of `readValue` is never abandoned for lack of steps. -/
theorem scanValue_fuel (input : List Char) :
    scanValue (2 * input.length + 2) 0 input ≠ .stuck := by
  intro h
  have := (scan_within (2 * input.length + 2)).1 0 input (by omega)
  rw [h] at this
  exact this

/-- The digit loop of `FormatUint` never runs out of steps: one more step does
not change what it writes. -/
theorem formatUintAux_fuel (fuel u : Nat) (acc : List Char) (h : u < fuel) :
    formatUintAux (fuel + 1) u acc = formatUintAux fuel u acc := by
  induction fuel generalizing u acc with
  | zero => omega
  | succ n ih =>
    rw [formatUintAux]
    conv_rhs => rw [formatUintAux]
    split_ifs
    · rfl
    · exact ih _ _ (by omega)

end Triton
